import Mathlib

/-!
A shallow embedding of the hub/room broadcast engine of the realtime-chat
repository (packages `internal/hub`, `internal/room`, `internal/websocket`).

Modelling conventions:
* Go channels of `[]byte` used as per-client outbound queues become entries of
  an association list `List (Nat × Queue)`; the `Nat` key plays the role of the
  channel pointer (every `make(chan []byte, 256)` allocates a fresh key).
  `Queue.closedCount` counts how many times `close` ran on the channel; Go
  itself would panic on the second close, so counting closes lets the model
  state the close-at-most-once property.
* Go map types (`map[*Client]bool`, `map[string]*Room`) become lists; pointer
  identity of a client is represented by the key of its send queue, which is
  unique per allocated client object.
* JSON payloads carried by the queues are represented structurally by `OutMsg`;
  the broadcast code never inspects payload bytes, so this is only a renaming.
* Wall-clock reads (`time.Now()`) become explicit `String`/`Nat` parameters.
* Each Go `select` loop (Hub.Run, Room.Run, Manager.Run) processes one command
  at a time; the model exposes each command case as a function on the world
  state, and a run of the system is a fold of such commands.
-/

/-- Record shapes sent from the server to a client.  These stand in for the
marshalled JSON bytes placed on a client's send channel. -/
structure RoomInfo where
  id : String
  name : String
  clientCount : Nat
  createdBy : String
  createdAt : String
deriving DecidableEq, Repr

inductive OutMsg where
  | system (message : String) (timestamp : String)
  | chat (mtype username content timestamp roomId : String)
  | roomCreated (roomId roomName message : String)
  | roomJoined (roomId roomName message : String)
  | roomError (message : String)
  | roomLeft (message : String)
  | roomList (rooms : List RoomInfo)
deriving DecidableEq, Repr

/-- A buffered Go channel used as an outbound queue: `make(chan []byte, 256)`.
`closedCount` counts executed `close` operations on it. -/
structure Queue where
  msgs : List OutMsg
  cap : Nat
  closedCount : Nat
deriving DecidableEq, Repr

/-- `room.Client` (room.go): a client record private to one room, carrying a
fresh send channel (represented by its key `sendQ`). -/
structure RClient where
  id : String
  username : String
  sendQ : Nat
deriving DecidableEq, Repr

/-- `room.Room` (room.go): `Clients map[*Client]bool` becomes a list of
records whose `sendQ` keys are pairwise distinct in reachable states. -/
structure Room where
  id : String
  name : String
  clients : List RClient
  createdAt : String
  createdBy : String
deriving DecidableEq, Repr

/-- `hub.Client` (hub.go): the per-connection client object.  `sendQ` is the
key of its send channel and doubles as the object's pointer identity. -/
structure HClient where
  id : String
  username : String
  sendQ : Nat
  roomID : String
deriving DecidableEq, Repr

/-- Association list lookup (Go map read). -/
def afind {κ α : Type} [DecidableEq κ] : List (κ × α) → κ → Option α
  | [], _ => none
  | (k', v) :: rest, k => if k' = k then some v else afind rest k

/-- Update the binding of an existing key; the identity when the key is
absent (used for writes through a pointer that is known to be in the map). -/
def aset {κ α : Type} [DecidableEq κ] : List (κ × α) → κ → α → List (κ × α)
  | [], _, _ => []
  | (k', v') :: rest, k, v =>
    if k' = k then (k', v) :: rest else (k', v') :: aset rest k v

/-- Go map insert `m[k] = v`: overwrite if present, append otherwise. -/
def ains {κ α : Type} [DecidableEq κ] : List (κ × α) → κ → α → List (κ × α)
  | [], k, v => [(k, v)]
  | (k', v') :: rest, k, v =>
    if k' = k then (k', v) :: rest else (k', v') :: ains rest k v

/-- Go map delete. -/
def adel {κ α : Type} [DecidableEq κ] : List (κ × α) → κ → List (κ × α)
  | [], _ => []
  | (k', v') :: rest, k =>
    if k' = k then adel rest k else (k', v') :: adel rest k

/-- `close(ch)` on the queue with key `k`. -/
def closeQ (qs : List (Nat × Queue)) (k : Nat) : List (Nat × Queue) :=
  match afind qs k with
  | some q => aset qs k { q with closedCount := q.closedCount + 1 }
  | none => qs

/-- The whole program state: all allocated queues, all allocated hub client
objects, the Hub's client set, and the Manager's room map. -/
structure World where
  queues : List (Nat × Queue)
  nextQ : Nat
  clientRecs : List (Nat × HClient)
  hubClients : List Nat
  rooms : List (String × Room)
deriving DecidableEq, Repr

/-- The common body of `Hub.broadcastMessage` (hub.go lines 113-131) and
`Room.broadcastMessage` (room.go lines 84-102); the two Go functions are
textually identical loops, differing only in the element type of the member
set, abstracted here by the key projection `qid`.  For each member that is not
the sender: a non-blocking send (`select`/`default`) appends the message when
the buffer has room, and otherwise closes the member's channel and deletes the
member from the set. -/
def deliver {γ : Type} (qid : γ → Nat) (message : OutMsg) (sender : Option Nat) :
    List (Nat × Queue) → List γ → List (Nat × Queue) × List γ
  | qs, [] => (qs, [])
  | qs, c :: rest =>
    if sender = some (qid c) then
      let r := deliver qid message sender qs rest
      (r.1, c :: r.2)
    else
      match afind qs (qid c) with
      | some q =>
        if q.msgs.length < q.cap then
          let r := deliver qid message sender
            (aset qs (qid c) { q with msgs := q.msgs ++ [message] }) rest
          (r.1, c :: r.2)
        else
          deliver qid message sender
            (aset qs (qid c) { q with closedCount := q.closedCount + 1 }) rest
      | none =>
        -- a member's channel is always an allocated channel; unreachable
        let r := deliver qid message sender qs rest
        (r.1, c :: r.2)

namespace Hub

/-- hub.go `broadcastMessage`: fan a payload out over the hub's client set. -/
def broadcastMessage (qs : List (Nat × Queue)) (clients : List Nat)
    (message : OutMsg) (sender : Option Nat) : List (Nat × Queue) × List Nat :=
  deliver (fun c => c) message sender qs clients

end Hub

namespace Room

/-- room.go `broadcastMessage`: fan a payload out over the room's member set. -/
def broadcastMessage (qs : List (Nat × Queue)) (clients : List RClient)
    (message : OutMsg) (sender : Option Nat) : List (Nat × Queue) × List RClient :=
  deliver RClient.sendQ message sender qs clients

/-- Membership test of the Go set `r.Clients` by pointer (queue key). -/
def hasPtr (cs : List RClient) (q : Nat) : Bool :=
  cs.any (fun c => c.sendQ == q)

/-- room.go `Room.Run`, `case client := <-r.Register`: insert the member and
broadcast the joined notice with the new member as sender. -/
def registerClient (qs : List (Nat × Queue)) (r : Room) (c : RClient)
    (now : String) : List (Nat × Queue) × Room :=
  let clients := if hasPtr r.clients c.sendQ then r.clients else r.clients ++ [c]
  let welcome := OutMsg.system (c.username ++ " joined the room") now
  let res := broadcastMessage qs clients welcome (some c.sendQ)
  (res.1, { r with clients := res.2 })

/-- room.go `Room.Run`, `case client := <-r.Unregister`: delete and close if
present; the goodbye notice is broadcast unconditionally with nil sender. -/
def unregisterClient (qs : List (Nat × Queue)) (r : Room) (c : RClient)
    (now : String) : List (Nat × Queue) × Room :=
  let st :=
    if hasPtr r.clients c.sendQ then
      (closeQ qs c.sendQ, r.clients.filter (fun x => x.sendQ ≠ c.sendQ))
    else (qs, r.clients)
  let goodbye := OutMsg.system (c.username ++ " left the room") now
  let res := broadcastMessage st.1 st.2 goodbye none
  (res.1, { r with clients := res.2 })

end Room

/-- room.go `NewRoom` (the `CreatedAt = time.Now()` read is the `now`
parameter). -/
def NewRoom (id name createdBy now : String) : Room :=
  { id := id, name := name, clients := [], createdAt := now, createdBy := createdBy }

/-- manager.go `generateRoomID` helper `randomString`: every loop iteration
re-reads the wall clock; `nanos` lists those `UnixNano()` readings. -/
def randomString (length : Nat) (nanos : List Nat) : String :=
  let cs := "abcdefghijklmnopqrstuvwxyzABCDEFGHIJKLMNOPQRSTUVWXYZ0123456789".toList
  String.mk ((List.range length).map (fun i => cs.getD ((nanos.getD i 0) % cs.length) 'a'))

/-- manager.go `generateRoomID`: `"room_" + time.Now().Format(...) + "_" +
randomString(6)`; `s` is the formatted clock reading. -/
def generateRoomID (s : String) (nanos : List Nat) : String :=
  "room_" ++ s ++ "_" ++ randomString 6 nanos

/-- manager.go `JoinResponse`.  The `Room *Room` field is a pointer from which
the caller only ever reads the immutable `Name`; the model snapshots the room
record. -/
structure JoinResponse where
  success : Bool
  room : Option Room
  message : String
deriving DecidableEq, Repr

namespace Manager

/-- manager.go `Manager.Run`, `case room := <-m.CreateRoom`: map insert
(overwriting any live room with the same identifier, as a Go map write does). -/
def createRoom (w : World) (r : Room) : World :=
  { w with rooms := ains w.rooms r.id r }

/-- manager.go `Manager.Run`, `case roomID := <-m.DeleteRoom`: if present,
close every member's send channel (members are not removed from the room
object, but the room leaves the map) and delete the map entry; no-op
otherwise. -/
def deleteRoom (w : World) (rid : String) : World :=
  match afind w.rooms rid with
  | some r =>
    { w with
      queues := (r.clients.map RClient.sendQ).foldl closeQ w.queues,
      rooms := adel w.rooms rid }
  | none => w

/-- manager.go `Manager.Run`, `case req := <-m.JoinRoom`: if the room exists,
build a fresh room client (fresh 256-slot send channel) bound to the hub
client's identity, register it with the room, and report success; report
"Room not found" otherwise.  The type assertion on the client always succeeds
for a `*hub.Client`; the `none` branch on `clientRecs` is its failure arm. -/
def joinRoom (w : World) (cq : Nat) (rid : String) (now : String) :
    World × JoinResponse :=
  match afind w.rooms rid with
  | some r =>
    match afind w.clientRecs cq with
    | some c =>
      let rc : RClient := { id := c.id, username := c.username, sendQ := w.nextQ }
      let qs := ains w.queues w.nextQ { msgs := [], cap := 256, closedCount := 0 }
      let res := Room.registerClient qs r rc now
      ({ w with queues := res.1, nextQ := w.nextQ + 1, rooms := aset w.rooms rid res.2 },
       { success := true, room := some res.2, message := "Successfully joined room" })
    | none =>
      (w, { success := false, room := none, message := "Invalid client type" })
  | none =>
    (w, { success := false, room := none, message := "Room not found" })

/-- manager.go `Manager.Run`, `case req := <-m.LeaveRoom`: if the room exists,
scan its member set for a member with the requesting client's ID, unregister
the first match if any, and respond `true` whether or not a match was found;
respond `false` only when the room is absent (or the type assertion fails,
which cannot happen for a `*hub.Client`). -/
def leaveRoom (w : World) (cq : Nat) (rid : String) (now : String) :
    World × Bool :=
  match afind w.rooms rid with
  | some r =>
    match afind w.clientRecs cq with
    | some c =>
      match r.clients.find? (fun rc => rc.id == c.id) with
      | some rc =>
        let res := Room.unregisterClient w.queues r rc now
        ({ w with queues := res.1, rooms := aset w.rooms rid res.2 }, true)
      | none => (w, true)
    | none => (w, false)
  | none => (w, false)

/-- manager.go `Manager.Run`, `case req := <-m.Broadcast`: forward to the
room's broadcast loop, which fans out with nil sender; silently dropped when
the room is absent.  (The request's `Sender` field is never read.) -/
def broadcastToRoom (w : World) (rid : String) (message : OutMsg) : World :=
  match afind w.rooms rid with
  | some r =>
    let res := Room.broadcastMessage w.queues r.clients message none
    { w with queues := res.1, rooms := aset w.rooms rid { r with clients := res.2 } }
  | none => w

/-- manager.go `CreateRoomAsync`: generate an identifier from the current
clock readings, build the room, hand it to the manager loop for insertion,
and return the identifier. -/
def CreateRoomAsync (w : World) (name createdBy now s : String)
    (ns : List Nat) : World × String :=
  let roomID := generateRoomID s ns
  (createRoom w (NewRoom roomID name createdBy now), roomID)

end Manager

namespace Hub

/-- hub.go `Hub.Run`, `case client := <-h.Register`: insert into the client
set, then broadcast the joined notice with the new client as sender. -/
def register (w : World) (cq : Nat) (now : String) : World :=
  match afind w.clientRecs cq with
  | some c =>
    let hubClients := if cq ∈ w.hubClients then w.hubClients else w.hubClients ++ [cq]
    let welcome := OutMsg.system (c.username ++ " joined the chat") now
    let res := broadcastMessage w.queues hubClients welcome (some cq)
    { w with queues := res.1, hubClients := res.2 }
  | none => w

/-- hub.go `Hub.Run`, `case client := <-h.Unregister`: delete and close if
present; then broadcast the left notice unconditionally with nil sender. -/
def unregister (w : World) (cq : Nat) (now : String) : World :=
  match afind w.clientRecs cq with
  | some c =>
    let st :=
      if cq ∈ w.hubClients then
        (closeQ w.queues cq, w.hubClients.filter (fun x => x ≠ cq))
      else (w.queues, w.hubClients)
    let goodbye := OutMsg.system (c.username ++ " left the chat") now
    let res := broadcastMessage st.1 st.2 goodbye none
    { w with queues := res.1, hubClients := res.2 }
  | none => w

/-- hub.go `Hub.Run`, `case message := <-h.Broadcast`: global fan-out with nil
sender. -/
def broadcast (w : World) (message : OutMsg) : World :=
  let res := broadcastMessage w.queues w.hubClients message none
  { w with queues := res.1, hubClients := res.2 }

end Hub

/-- websocket.go `RoomAction`: the inbound record as decoded by
`json.Unmarshal` into the `RoomAction` shape (absent fields decode to ""). -/
structure RoomAction where
  mtype : String
  roomId : String
  roomName : String
  username : String
deriving DecidableEq, Repr

/-- An inbound well-formed JSON object, with the fields either of the two
inbound shapes can carry (absent fields are "").  `json.Unmarshal` into
either Go struct succeeds on any such object, ignoring unknown fields. -/
structure InRecord where
  mtype : String
  content : String
  roomId : String
  roomName : String
  username : String
deriving DecidableEq, Repr

/-- A blocking send `c.Send <- payload` issued by the client's own reader
goroutine, modelled at its completion. -/
def selfSend (qs : List (Nat × Queue)) (cq : Nat) (m : OutMsg) :
    List (Nat × Queue) :=
  match afind qs cq with
  | some q => aset qs cq { q with msgs := q.msgs ++ [m] }
  | none => qs

/-- Overwrite the client's `RoomID` field through its pointer. -/
def setRoomID (w : World) (cq : Nat) (rid : String) : World :=
  match afind w.clientRecs cq with
  | some c => { w with clientRecs := aset w.clientRecs cq { c with roomID := rid } }
  | none => w

/-- The name the websocket layer reads off a join response (`response.Room.Name`). -/
def JoinResponse.theRoomName : JoinResponse → String
  | { room := some r, .. } => r.name
  | { room := none, .. } => ""

/-- websocket.go `handleRoomAction`, `case "join"`: on success set
`c.RoomID` and enqueue `room_joined`; on failure enqueue `room_error`. -/
def handleJoin (w : World) (cq : Nat) (roomId : String) (now : String) : World :=
  let res := Manager.joinRoom w cq roomId now
  if res.2.success then
    let w2 := setRoomID res.1 cq roomId
    let qs := selfSend w2.queues cq
      (OutMsg.roomJoined roomId res.2.theRoomName "Successfully joined room")
    { w2 with queues := qs }
  else
    { res.1 with queues := selfSend res.1.queues cq (OutMsg.roomError res.2.message) }

/-- websocket.go `handleRoomAction`, `case "leave"` (lines 257-274): only act
when the client's current-room field is non-empty; on a successful leave clear
it and enqueue `room_left`; on a failed leave do nothing at all. -/
def handleLeave (w : World) (cq : Nat) (now : String) : World :=
  match afind w.clientRecs cq with
  | some c =>
    if c.roomID ≠ "" then
      let res := Manager.leaveRoom w cq c.roomID now
      if res.2 then
        let w2 := setRoomID res.1 cq ""
        let qs := selfSend w2.queues cq (OutMsg.roomLeft "Successfully left room")
        { w2 with queues := qs }
      else res.1
    else w
  | none => w

/-- websocket.go `handleRoomAction`, `case "create"`: create the room through
the manager, enqueue `room_created`, then auto-join (the Go code re-enters
`handleRoomAction` with a synthesized "join" action, which is `handleJoin`).
`s`/`ns` are the clock readings consumed by `generateRoomID`. -/
def handleCreate (w : World) (cq : Nat) (roomName : String) (now s : String)
    (ns : List Nat) : World :=
  match afind w.clientRecs cq with
  | some c =>
    let res := Manager.CreateRoomAsync w roomName c.username now s ns
    let qs := selfSend res.1.queues cq
      (OutMsg.roomCreated res.2 roomName "Room created successfully")
    handleJoin { res.1 with queues := qs } cq res.2 now
  | none => w

/-- websocket.go `handleRoomAction`, `case "list"`. -/
def handleList (w : World) (cq : Nat) : World :=
  let infos := w.rooms.map (fun p =>
    { id := p.2.id, name := p.2.name, clientCount := p.2.clients.length,
      createdBy := p.2.createdBy, createdAt := p.2.createdAt : RoomInfo })
  { w with queues := selfSend w.queues cq (OutMsg.roomList infos) }

/-- websocket.go `handleRoomAction`: the switch has no default case, so any
other action kind is silently ignored. -/
def handleRoomAction (w : World) (cq : Nat) (action : RoomAction)
    (now s : String) (ns : List Nat) : World :=
  match action.mtype with
  | "create" => handleCreate w cq action.roomName now s ns
  | "join" => handleJoin w cq action.roomId now
  | "leave" => handleLeave w cq now
  | "list" => handleList w cq
  | _ => w

/-- websocket.go `readPump`, one loop iteration on a well-formed inbound JSON
object: `json.Unmarshal` into `RoomAction` succeeds on any such object, so the
room-action path is taken whenever the record carries a non-empty `type`
field; only records without a `type` reach the chat path, which stamps
username/timestamp/roomId and forwards to the room (nil sender) or the hub. -/
def readPumpStep (w : World) (cq : Nat) (rec : InRecord) (now s : String)
    (ns : List Nat) : World :=
  if rec.mtype ≠ "" then
    handleRoomAction w cq
      { mtype := rec.mtype, roomId := rec.roomId, roomName := rec.roomName,
        username := rec.username } now s ns
  else
    match afind w.clientRecs cq with
    | some c =>
      let msg := OutMsg.chat rec.mtype c.username rec.content now c.roomID
      if c.roomID ≠ "" then
        Manager.broadcastToRoom w c.roomID msg
      else
        Hub.broadcast w msg
    | none => w

/-- websocket.go `HandleWebSocket` plus the hub's register case: allocate the
client object with a fresh 256-slot send channel (`id` is the clock-derived
`generateClientID()` result) and register it with the hub. -/
def connect (w : World) (id username : String) (now : String) : World :=
  let cq := w.nextQ
  let c : HClient := { id := id, username := username, sendQ := cq, roomID := "" }
  let w1 := { w with
    queues := ains w.queues cq { msgs := [], cap := 256, closedCount := 0 },
    clientRecs := ains w.clientRecs cq c,
    nextQ := cq + 1 }
  Hub.register w1 cq now

/-- One external command entering the system: a new connection, a connection
teardown (readPump's deferred `Unregister`), one inbound record, or a
`DeleteRoom` request (the manager's exported channel; the repository itself
never sends on it). -/
inductive Op where
  | connect (id username now : String)
  | disconnect (cq : Nat) (now : String)
  | inbound (cq : Nat) (rec : InRecord) (now s : String) (ns : List Nat)
  | delRoom (rid : String)
deriving DecidableEq, Repr

def step (w : World) : Op → World
  | .connect id username now => connect w id username now
  | .disconnect cq now => Hub.unregister w cq now
  | .inbound cq rec now s ns => readPumpStep w cq rec now s ns
  | .delRoom rid => Manager.deleteRoom w rid

def initWorld : World :=
  { queues := [], nextQ := 0, clientRecs := [], hubClients := [], rooms := [] }

def run (ops : List Op) : World := ops.foldl step initWorld

/-- Every allocated send channel has been closed at most once. -/
def closedOk (w : World) : Bool :=
  w.queues.all (fun p => p.2.closedCount ≤ 1)

/-! ### Association list lemmas -/

section AListLemmas

variable {κ α : Type} [DecidableEq κ]

theorem afind_aset_self (l : List (κ × α)) (k : κ) (v q : α)
    (h : afind l k = some q) : afind (aset l k v) k = some v := by
  induction l with
  | nil => simp [afind] at h
  | cons p rest ih =>
    by_cases hk : p.1 = k
    · simp [afind, aset, hk]
    · simp [afind, aset, hk] at h ⊢
      exact ih h

theorem afind_aset_ne (l : List (κ × α)) (k k' : κ) (v : α)
    (h : k ≠ k') : afind (aset l k v) k' = afind l k' := by
  induction l with
  | nil => rfl
  | cons p rest ih =>
    by_cases hk : p.1 = k
    · subst hk
      simp [aset, afind, h]
    · simp [aset, afind, hk, ih]

theorem aset_keys (l : List (κ × α)) (k : κ) (v : α) :
    (aset l k v).map Prod.fst = l.map Prod.fst := by
  induction l with
  | nil => simp [aset]
  | cons p rest ih =>
    by_cases hk : p.1 = k
    · simp [aset, hk]
    · simp [aset, hk, ih]

theorem afind_ains_self (l : List (κ × α)) (k : κ) (v : α) :
    afind (ains l k v) k = some v := by
  induction l with
  | nil => simp [ains, afind]
  | cons p rest ih =>
    by_cases hk : p.1 = k
    · simp [ains, afind, hk]
    · simp [ains, afind, hk, ih]

theorem afind_ains_ne (l : List (κ × α)) (k k' : κ) (v : α)
    (h : k ≠ k') : afind (ains l k v) k' = afind l k' := by
  induction l with
  | nil => simp [ains, afind, h]
  | cons p rest ih =>
    by_cases hk : p.1 = k
    · subst hk
      simp [ains, afind, h]
    · simp [ains, afind, hk, ih]

theorem afind_eq_none_iff (l : List (κ × α)) (k : κ) :
    afind l k = none ↔ k ∉ l.map Prod.fst := by
  induction l with
  | nil => simp [afind]
  | cons p rest ih =>
    by_cases hk : p.1 = k
    · simp [afind, hk]
    · simp [afind, hk, ih, Ne.symm hk]

theorem afind_mem_keys {l : List (κ × α)} {k : κ} {v : α}
    (h : afind l k = some v) : k ∈ l.map Prod.fst := by
  by_contra hk
  rw [← afind_eq_none_iff] at hk
  rw [h] at hk
  exact Option.noConfusion hk

theorem afind_eq_none_of_not_mem {l : List (κ × α)} {k : κ}
    (h : k ∉ l.map Prod.fst) : afind l k = none :=
  (afind_eq_none_iff l k).mpr h

theorem ains_eq_append {l : List (κ × α)} {k : κ} (v : α)
    (h : afind l k = none) : ains l k v = l ++ [(k, v)] := by
  induction l with
  | nil => simp [ains]
  | cons p rest ih =>
    by_cases hk : p.1 = k
    · simp [afind, hk] at h
    · simp [afind, hk] at h
      simp [ains, hk, ih h]

theorem afind_adel_self (l : List (κ × α)) (k : κ) :
    afind (adel l k) k = none := by
  induction l with
  | nil => simp [adel, afind]
  | cons p rest ih =>
    by_cases hk : p.1 = k
    · simp [adel, hk, ih]
    · simp [adel, afind, hk, ih]

theorem afind_adel_ne (l : List (κ × α)) (k k' : κ)
    (h : k ≠ k') : afind (adel l k) k' = afind l k' := by
  induction l with
  | nil => simp [adel]
  | cons p rest ih =>
    by_cases hk : p.1 = k
    · subst hk
      simp [adel, afind, h, ih]
    · simp [adel, afind, hk, ih]

theorem afind_entry_of_nodup {l : List (κ × α)}
    (hnd : (l.map Prod.fst).Nodup) {p : κ × α} (hp : p ∈ l) :
    afind l p.1 = some p.2 := by
  induction l with
  | nil => simp at hp
  | cons hd rest ih =>
    rw [List.map_cons, List.nodup_cons] at hnd
    rcases List.mem_cons.mp hp with h | h
    · subst h
      simp [afind]
    · have hmem : p.1 ∈ rest.map Prod.fst := List.mem_map.mpr ⟨p, h, rfl⟩
      have hne : hd.1 ≠ p.1 := by
        intro he
        rw [he] at hnd
        exact hnd.1 hmem
      simp [afind, hne]
      exact ih hnd.2 h

/-- Decompose a list at the first binding of `k`, together with how `aset` and
`adel` act on that decomposition. -/
theorem afind_split {l : List (κ × α)} {k : κ} {v : α}
    (h : afind l k = some v) :
    ∃ l₁ l₂, l = l₁ ++ (k, v) :: l₂ ∧ (∀ p ∈ l₁, p.1 ≠ k) ∧
      (∀ v', aset l k v' = l₁ ++ (k, v') :: l₂) ∧
      adel l k = l₁ ++ adel l₂ k := by
  induction l with
  | nil => exact absurd h (by simp [afind])
  | cons p rest ih =>
    rcases p with ⟨pk, pv⟩
    by_cases hk : pk = k
    · subst hk
      have hv : pv = v := by simpa [afind] using h
      subst hv
      refine ⟨[], rest, by simp, by simp, ?_, ?_⟩
      · intro v'
        simp [aset]
      · simp [adel]
    · have h' : afind rest k = some v := by simpa [afind, hk] using h
      obtain ⟨l₁, l₂, hl, hl₁, hset, hdel⟩ := ih h'
      refine ⟨(pk, pv) :: l₁, l₂, by simp [hl], ?_, ?_, ?_⟩
      · intro q hq
        rcases List.mem_cons.mp hq with h1 | h1
        · subst h1; exact hk
        · exact hl₁ q h1
      · intro v'
        simp [aset, hk, hset v']
      · simp [adel, hk, hdel]

end AListLemmas

/-! ### closeQ lemmas -/

/-- Increment of the close counter. -/
def bump (q : Queue) : Queue := { q with closedCount := q.closedCount + 1 }

theorem closeQ_keys (qs : List (Nat × Queue)) (k : Nat) :
    (closeQ qs k).map Prod.fst = qs.map Prod.fst := by
  unfold closeQ
  cases h : afind qs k with
  | none => rfl
  | some q => exact aset_keys qs k _

theorem afind_closeQ_self (qs : List (Nat × Queue)) (k : Nat) :
    afind (closeQ qs k) k = (afind qs k).map bump := by
  unfold closeQ
  cases h : afind qs k with
  | none => simp [h]
  | some q => simp [afind_aset_self qs k _ q h, bump]

theorem afind_closeQ_ne (qs : List (Nat × Queue)) (k k' : Nat)
    (h : k ≠ k') : afind (closeQ qs k) k' = afind qs k' := by
  unfold closeQ
  cases hq : afind qs k with
  | none => rfl
  | some q => exact afind_aset_ne qs k k' _ h

theorem foldl_closeQ_keys (ks : List Nat) (qs : List (Nat × Queue)) :
    (ks.foldl closeQ qs).map Prod.fst = qs.map Prod.fst := by
  induction ks generalizing qs with
  | nil => rfl
  | cons k rest ih => simp [List.foldl_cons, ih, closeQ_keys]

theorem afind_foldl_closeQ_not_mem (ks : List Nat) (qs : List (Nat × Queue))
    (k : Nat) (h : k ∉ ks) : afind (ks.foldl closeQ qs) k = afind qs k := by
  induction ks generalizing qs with
  | nil => rfl
  | cons k' rest ih =>
    simp at h
    simp [List.foldl_cons, ih _ h.2, afind_closeQ_ne _ _ _ (Ne.symm h.1)]

theorem afind_foldl_closeQ_mem (ks : List Nat) (qs : List (Nat × Queue))
    (k : Nat) (hnd : ks.Nodup) (h : k ∈ ks) :
    afind (ks.foldl closeQ qs) k = (afind qs k).map bump := by
  induction ks generalizing qs with
  | nil => simp at h
  | cons k' rest ih =>
    simp at hnd
    rcases List.mem_cons.mp h with h' | h'
    · subst h'
      simp [List.foldl_cons,
        afind_foldl_closeQ_not_mem rest _ k hnd.1, afind_closeQ_self]
    · have hne : k' ≠ k := by
        intro he
        exact hnd.1 (he ▸ h')
      simp [List.foldl_cons, ih _ hnd.2 h', afind_closeQ_ne _ _ _ hne]

/-! ### deliver lemmas -/

section DeliverUnfold

variable {γ : Type} {qid : γ → Nat} {m : OutMsg} {s : Option Nat}
variable {qs : List (Nat × Queue)} {c : γ} {rest : List γ} {q : Queue}

theorem deliver_nil : deliver qid m s qs ([] : List γ) = (qs, []) := rfl

theorem deliver_cons_skip (h : s = some (qid c)) :
    deliver qid m s qs (c :: rest) =
      ((deliver qid m s qs rest).1, c :: (deliver qid m s qs rest).2) := by
  simp [deliver, h]

theorem deliver_cons_none (h1 : ¬ s = some (qid c))
    (h2 : afind qs (qid c) = none) :
    deliver qid m s qs (c :: rest) =
      ((deliver qid m s qs rest).1, c :: (deliver qid m s qs rest).2) := by
  simp [deliver, h1, h2]

theorem deliver_cons_enq (h1 : ¬ s = some (qid c))
    (h2 : afind qs (qid c) = some q) (h3 : q.msgs.length < q.cap) :
    deliver qid m s qs (c :: rest) =
      ((deliver qid m s (aset qs (qid c) { q with msgs := q.msgs ++ [m] }) rest).1,
       c :: (deliver qid m s (aset qs (qid c) { q with msgs := q.msgs ++ [m] }) rest).2) := by
  simp [deliver, h1, h2, h3]

theorem deliver_cons_evict (h1 : ¬ s = some (qid c))
    (h2 : afind qs (qid c) = some q) (h3 : ¬ q.msgs.length < q.cap) :
    deliver qid m s qs (c :: rest) =
      deliver qid m s (aset qs (qid c) { q with closedCount := q.closedCount + 1 }) rest := by
  simp [deliver, h1, h2, h3]

end DeliverUnfold

section DeliverLemmas

variable {γ : Type} (qid : γ → Nat) (m : OutMsg) (s : Option Nat)

theorem deliver_keys (qs : List (Nat × Queue)) (cs : List γ) :
    (deliver qid m s qs cs).1.map Prod.fst = qs.map Prod.fst := by
  induction cs generalizing qs with
  | nil => rfl
  | cons c rest ih =>
    by_cases hs : s = some (qid c)
    · rw [deliver_cons_skip hs]
      exact ih qs
    · cases hq : afind qs (qid c) with
      | none =>
        rw [deliver_cons_none hs hq]
        exact ih qs
      | some q =>
        by_cases hroom : q.msgs.length < q.cap
        · rw [deliver_cons_enq hs hq hroom]
          rw [show ((deliver qid m s (aset qs (qid c) { q with msgs := q.msgs ++ [m] }) rest).1,
              c :: (deliver qid m s (aset qs (qid c) { q with msgs := q.msgs ++ [m] }) rest).2).1
            = (deliver qid m s (aset qs (qid c) { q with msgs := q.msgs ++ [m] }) rest).1 from rfl]
          rw [ih _, aset_keys]
        · rw [deliver_cons_evict hs hq hroom, ih _, aset_keys]

theorem deliver_sublist (qs : List (Nat × Queue)) (cs : List γ) :
    (deliver qid m s qs cs).2.Sublist cs := by
  induction cs generalizing qs with
  | nil => simp [deliver_nil]
  | cons c rest ih =>
    by_cases hs : s = some (qid c)
    · rw [deliver_cons_skip hs]
      exact (ih qs).cons₂ c
    · cases hq : afind qs (qid c) with
      | none =>
        rw [deliver_cons_none hs hq]
        exact (ih qs).cons₂ c
      | some q =>
        by_cases hroom : q.msgs.length < q.cap
        · rw [deliver_cons_enq hs hq hroom]
          exact (ih _).cons₂ c
        · rw [deliver_cons_evict hs hq hroom]
          exact (ih _).cons c

theorem deliver_afind_not_mem (qs : List (Nat × Queue)) (cs : List γ)
    (k : Nat) (hk : ∀ c ∈ cs, qid c ≠ k) :
    afind (deliver qid m s qs cs).1 k = afind qs k := by
  induction cs generalizing qs with
  | nil => rfl
  | cons c rest ih =>
    have hk0 : qid c ≠ k := hk c (List.mem_cons_self c rest)
    have hkr : ∀ c' ∈ rest, qid c' ≠ k := fun c' h => hk c' (List.mem_cons_of_mem c h)
    by_cases hs : s = some (qid c)
    · rw [deliver_cons_skip hs]
      exact ih qs hkr
    · cases hq : afind qs (qid c) with
      | none =>
        rw [deliver_cons_none hs hq]
        exact ih qs hkr
      | some q =>
        by_cases hroom : q.msgs.length < q.cap
        · rw [deliver_cons_enq hs hq hroom]
          rw [show ((deliver qid m s (aset qs (qid c) { q with msgs := q.msgs ++ [m] }) rest).1,
              c :: (deliver qid m s (aset qs (qid c) { q with msgs := q.msgs ++ [m] }) rest).2).1
            = (deliver qid m s (aset qs (qid c) { q with msgs := q.msgs ++ [m] }) rest).1 from rfl]
          rw [ih _ hkr, afind_aset_ne _ _ _ _ hk0]
        · rw [deliver_cons_evict hs hq hroom, ih _ hkr, afind_aset_ne _ _ _ _ hk0]

theorem deliver_afind_sender (qs : List (Nat × Queue)) (cs : List γ)
    (k : Nat) (hs : s = some k) :
    afind (deliver qid m s qs cs).1 k = afind qs k := by
  induction cs generalizing qs with
  | nil => rfl
  | cons c rest ih =>
    by_cases hc : qid c = k
    · rw [deliver_cons_skip (by rw [hs, hc])]
      exact ih qs
    · have hs' : ¬ s = some (qid c) := by
        rw [hs]
        simp [Ne.symm hc]
      cases hq : afind qs (qid c) with
      | none =>
        rw [deliver_cons_none hs' hq]
        exact ih qs
      | some q =>
        by_cases hroom : q.msgs.length < q.cap
        · rw [deliver_cons_enq hs' hq hroom]
          rw [show ((deliver qid m s (aset qs (qid c) { q with msgs := q.msgs ++ [m] }) rest).1,
              c :: (deliver qid m s (aset qs (qid c) { q with msgs := q.msgs ++ [m] }) rest).2).1
            = (deliver qid m s (aset qs (qid c) { q with msgs := q.msgs ++ [m] }) rest).1 from rfl]
          rw [ih _, afind_aset_ne _ _ _ _ hc]
        · rw [deliver_cons_evict hs' hq hroom, ih _, afind_aset_ne _ _ _ _ hc]

end DeliverLemmas

section DeliverMemberLemmas

variable {γ : Type} (qid : γ → Nat) (m : OutMsg) (s : Option Nat)

theorem deliver_member_notfull (qs : List (Nat × Queue)) (cs : List γ)
    (hnd : (cs.map qid).Nodup) {c : γ} (hc : c ∈ cs)
    (hsc : ¬ s = some (qid c)) {q : Queue}
    (hq : afind qs (qid c) = some q) (hroom : q.msgs.length < q.cap) :
    c ∈ (deliver qid m s qs cs).2 ∧
      afind (deliver qid m s qs cs).1 (qid c) =
        some { q with msgs := q.msgs ++ [m] } := by
  induction cs generalizing qs with
  | nil => simp at hc
  | cons c0 rest ih =>
    rw [List.map_cons, List.nodup_cons] at hnd
    rcases List.mem_cons.mp hc with rfl | hc'
    · have hrest : ∀ x ∈ rest, qid x ≠ qid c := by
        intro x hx he
        exact hnd.1 (he ▸ List.mem_map.mpr ⟨x, hx, rfl⟩)
      rw [deliver_cons_enq hsc hq hroom]
      refine ⟨List.mem_cons_self _ _, ?_⟩
      dsimp only
      rw [deliver_afind_not_mem qid m s _ rest _ hrest]
      exact afind_aset_self qs (qid c) _ q hq
    · have hne : qid c0 ≠ qid c := by
        intro he
        exact hnd.1 (he ▸ List.mem_map.mpr ⟨c, hc', rfl⟩)
      by_cases hs0 : s = some (qid c0)
      · rw [deliver_cons_skip hs0]
        have h := ih qs hnd.2 hc' hq
        exact ⟨List.mem_cons_of_mem _ h.1, h.2⟩
      · cases hq0 : afind qs (qid c0) with
        | none =>
          rw [deliver_cons_none hs0 hq0]
          have h := ih qs hnd.2 hc' hq
          exact ⟨List.mem_cons_of_mem _ h.1, h.2⟩
        | some q0 =>
          by_cases hroom0 : q0.msgs.length < q0.cap
          · rw [deliver_cons_enq hs0 hq0 hroom0]
            have hq' : afind (aset qs (qid c0) { q0 with msgs := q0.msgs ++ [m] }) (qid c) = some q := by
              rw [afind_aset_ne _ _ _ _ hne]
              exact hq
            have h := ih _ hnd.2 hc' hq'
            exact ⟨List.mem_cons_of_mem _ h.1, h.2⟩
          · rw [deliver_cons_evict hs0 hq0 hroom0]
            have hq' : afind (aset qs (qid c0) { q0 with closedCount := q0.closedCount + 1 }) (qid c) = some q := by
              rw [afind_aset_ne _ _ _ _ hne]
              exact hq
            exact ih _ hnd.2 hc' hq'

theorem deliver_member_evicted (qs : List (Nat × Queue)) (cs : List γ)
    (hnd : (cs.map qid).Nodup) {c : γ} (hc : c ∈ cs)
    (hsc : ¬ s = some (qid c)) {q : Queue}
    (hq : afind qs (qid c) = some q) (hroom : ¬ q.msgs.length < q.cap) :
    (∀ x ∈ (deliver qid m s qs cs).2, qid x ≠ qid c) ∧
      afind (deliver qid m s qs cs).1 (qid c) =
        some { q with closedCount := q.closedCount + 1 } := by
  induction cs generalizing qs with
  | nil => simp at hc
  | cons c0 rest ih =>
    rw [List.map_cons, List.nodup_cons] at hnd
    rcases List.mem_cons.mp hc with rfl | hc'
    · have hrest : ∀ x ∈ rest, qid x ≠ qid c := by
        intro x hx he
        exact hnd.1 (he ▸ List.mem_map.mpr ⟨x, hx, rfl⟩)
      rw [deliver_cons_evict hsc hq hroom]
      constructor
      · intro x hx
        exact hrest x (List.Sublist.subset (deliver_sublist qid m s _ rest) hx)
      · rw [deliver_afind_not_mem qid m s _ rest _ hrest]
        exact afind_aset_self qs (qid c) _ q hq
    · have hne : qid c0 ≠ qid c := by
        intro he
        exact hnd.1 (he ▸ List.mem_map.mpr ⟨c, hc', rfl⟩)
      by_cases hs0 : s = some (qid c0)
      · rw [deliver_cons_skip hs0]
        have h := ih qs hnd.2 hc' hq
        refine ⟨?_, h.2⟩
        intro x hx
        rcases List.mem_cons.mp hx with rfl | hx'
        · exact hne
        · exact h.1 x hx'
      · cases hq0 : afind qs (qid c0) with
        | none =>
          rw [deliver_cons_none hs0 hq0]
          have h := ih qs hnd.2 hc' hq
          refine ⟨?_, h.2⟩
          intro x hx
          rcases List.mem_cons.mp hx with rfl | hx'
          · exact hne
          · exact h.1 x hx'
        | some q0 =>
          by_cases hroom0 : q0.msgs.length < q0.cap
          · rw [deliver_cons_enq hs0 hq0 hroom0]
            have hq' : afind (aset qs (qid c0) { q0 with msgs := q0.msgs ++ [m] }) (qid c) = some q := by
              rw [afind_aset_ne _ _ _ _ hne]
              exact hq
            have h := ih _ hnd.2 hc' hq'
            refine ⟨?_, h.2⟩
            intro x hx
            rcases List.mem_cons.mp hx with rfl | hx'
            · exact hne
            · exact h.1 x hx'
          · rw [deliver_cons_evict hs0 hq0 hroom0]
            have hq' : afind (aset qs (qid c0) { q0 with closedCount := q0.closedCount + 1 }) (qid c) = some q := by
              rw [afind_aset_ne _ _ _ _ hne]
              exact hq
            exact ih _ hnd.2 hc' hq'

theorem deliver_member_sender (qs : List (Nat × Queue)) (cs : List γ)
    {c : γ} (hc : c ∈ cs) (hs : s = some (qid c)) :
    c ∈ (deliver qid m s qs cs).2 := by
  induction cs generalizing qs with
  | nil => simp at hc
  | cons c0 rest ih =>
    rcases List.mem_cons.mp hc with rfl | hc'
    · rw [deliver_cons_skip hs]
      exact List.mem_cons_self _ _
    · by_cases hs0 : s = some (qid c0)
      · rw [deliver_cons_skip hs0]
        exact List.mem_cons_of_mem _ (ih qs hc')
      · cases hq0 : afind qs (qid c0) with
        | none =>
          rw [deliver_cons_none hs0 hq0]
          exact List.mem_cons_of_mem _ (ih qs hc')
        | some q0 =>
          by_cases hroom0 : q0.msgs.length < q0.cap
          · rw [deliver_cons_enq hs0 hq0 hroom0]
            exact List.mem_cons_of_mem _ (ih _ hc')
          · rw [deliver_cons_evict hs0 hq0 hroom0]
            exact ih _ hc'

theorem deliver_no_evict (qs : List (Nat × Queue)) (cs : List γ)
    (hnd : (cs.map qid).Nodup)
    (hlive : ∀ c ∈ cs, ¬ s = some (qid c) →
      ∃ q, afind qs (qid c) = some q ∧ q.msgs.length < q.cap) :
    (deliver qid m s qs cs).2 = cs := by
  induction cs generalizing qs with
  | nil => rfl
  | cons c0 rest ih =>
    rw [List.map_cons, List.nodup_cons] at hnd
    have hne : ∀ x ∈ rest, qid c0 ≠ qid x := by
      intro x hx he
      exact hnd.1 (he ▸ List.mem_map.mpr ⟨x, hx, rfl⟩)
    by_cases hs0 : s = some (qid c0)
    · rw [deliver_cons_skip hs0]
      rw [ih qs hnd.2 (fun c hc hsc => hlive c (List.mem_cons_of_mem _ hc) hsc)]
    · obtain ⟨q0, hq0, hroom0⟩ := hlive c0 (List.mem_cons_self _ _) hs0
      rw [deliver_cons_enq hs0 hq0 hroom0]
      dsimp only
      rw [ih _ hnd.2 ?_]
      intro c hc hsc
      rw [afind_aset_ne _ _ _ _ (hne c hc)]
      exact hlive c (List.mem_cons_of_mem _ hc) hsc

theorem deliver_closed_le (qs : List (Nat × Queue)) (cs : List γ)
    (hnd : (cs.map qid).Nodup)
    (hlive : ∀ c ∈ cs, ∃ q, afind qs (qid c) = some q ∧ q.closedCount = 0)
    (k : Nat) (q' : Queue)
    (h : afind (deliver qid m s qs cs).1 k = some q') :
    ∃ q, afind qs k = some q ∧ q'.closedCount ≤ max q.closedCount 1 := by
  induction cs generalizing qs with
  | nil => exact ⟨q', h, le_max_left _ _⟩
  | cons c0 rest ih =>
    rw [List.map_cons, List.nodup_cons] at hnd
    have hne : ∀ x ∈ rest, qid c0 ≠ qid x := by
      intro x hx he
      exact hnd.1 (he ▸ List.mem_map.mpr ⟨x, hx, rfl⟩)
    by_cases hs0 : s = some (qid c0)
    · rw [deliver_cons_skip hs0] at h
      exact ih qs hnd.2 (fun c hc => hlive c (List.mem_cons_of_mem _ hc)) h
    · obtain ⟨q0, hq0, hq0c⟩ := hlive c0 (List.mem_cons_self _ _)
      by_cases hroom0 : q0.msgs.length < q0.cap
      · rw [deliver_cons_enq hs0 hq0 hroom0] at h
        dsimp only at h
        have hl : ∀ c ∈ rest,
            ∃ q, afind (aset qs (qid c0) { q0 with msgs := q0.msgs ++ [m] }) (qid c) = some q ∧
              q.closedCount = 0 := by
          intro c hc
          rw [afind_aset_ne _ _ _ _ (hne c hc)]
          exact hlive c (List.mem_cons_of_mem _ hc)
        obtain ⟨q1, hq1, hle⟩ := ih _ hnd.2 hl h
        by_cases hk : qid c0 = k
        · subst hk
          rw [afind_aset_self qs _ _ q0 hq0] at hq1
          cases hq1
          exact ⟨q0, hq0, by simpa using hle⟩
        · rw [afind_aset_ne _ _ _ _ hk] at hq1
          exact ⟨q1, hq1, hle⟩
      · rw [deliver_cons_evict hs0 hq0 hroom0] at h
        have hl : ∀ c ∈ rest,
            ∃ q, afind (aset qs (qid c0) { q0 with closedCount := q0.closedCount + 1 }) (qid c) = some q ∧
              q.closedCount = 0 := by
          intro c hc
          rw [afind_aset_ne _ _ _ _ (hne c hc)]
          exact hlive c (List.mem_cons_of_mem _ hc)
        obtain ⟨q1, hq1, hle⟩ := ih _ hnd.2 hl h
        by_cases hk : qid c0 = k
        · subst hk
          rw [afind_aset_self qs _ _ q0 hq0] at hq1
          cases hq1
          refine ⟨q0, hq0, ?_⟩
          simp only [hq0c] at hle ⊢
          simpa using hle
        · rw [afind_aset_ne _ _ _ _ hk] at hq1
          exact ⟨q1, hq1, hle⟩

theorem deliver_kept_open (qs : List (Nat × Queue)) (cs : List γ)
    (hnd : (cs.map qid).Nodup)
    (hlive : ∀ c ∈ cs, ∃ q, afind qs (qid c) = some q ∧ q.closedCount = 0)
    {c : γ} (hc : c ∈ (deliver qid m s qs cs).2) :
    ∃ q', afind (deliver qid m s qs cs).1 (qid c) = some q' ∧
      q'.closedCount = 0 := by
  induction cs generalizing qs with
  | nil => simp [deliver_nil] at hc
  | cons c0 rest ih =>
    rw [List.map_cons, List.nodup_cons] at hnd
    have hne : ∀ x ∈ rest, qid c0 ≠ qid x := by
      intro x hx he
      exact hnd.1 (he ▸ List.mem_map.mpr ⟨x, hx, rfl⟩)
    have hnotmem : ∀ x ∈ rest, qid x ≠ qid c0 :=
      fun x hx => Ne.symm (hne x hx)
    by_cases hs0 : s = some (qid c0)
    · rw [deliver_cons_skip hs0] at hc ⊢
      rcases List.mem_cons.mp hc with h1 | hc'
      · dsimp only
        rw [show qid c = qid c0 from congrArg qid h1]
        rw [deliver_afind_not_mem qid m s qs rest _ hnotmem]
        exact hlive c0 (List.mem_cons_self _ _)
      · exact ih qs hnd.2 (fun x hx => hlive x (List.mem_cons_of_mem _ hx)) hc'
    · obtain ⟨q0, hq0, hq0c⟩ := hlive c0 (List.mem_cons_self _ _)
      have hlrest : ∀ x ∈ rest,
          ∃ q, afind (aset qs (qid c0) { q0 with msgs := q0.msgs ++ [m] }) (qid x) = some q ∧
            q.closedCount = 0 := by
        intro x hx
        rw [afind_aset_ne _ _ _ _ (hne x hx)]
        exact hlive x (List.mem_cons_of_mem _ hx)
      by_cases hroom0 : q0.msgs.length < q0.cap
      · rw [deliver_cons_enq hs0 hq0 hroom0] at hc ⊢
        rcases List.mem_cons.mp hc with h1 | hc'
        · dsimp only
          rw [show qid c = qid c0 from congrArg qid h1]
          rw [deliver_afind_not_mem qid m s _ rest _ hnotmem]
          rw [afind_aset_self qs _ _ q0 hq0]
          exact ⟨_, rfl, hq0c⟩
        · exact ih _ hnd.2 hlrest hc'
      · rw [deliver_cons_evict hs0 hq0 hroom0] at hc ⊢
        refine ih _ hnd.2 ?_ hc
        intro x hx
        rw [afind_aset_ne _ _ _ _ (hne x hx)]
        exact hlive x (List.mem_cons_of_mem _ hx)

end DeliverMemberLemmas

/-! ### Concrete fixtures for the scenario claims -/

/-- A fresh 256-slot outbound queue. -/
def emptyQ : Queue := { msgs := [], cap := 256, closedCount := 0 }

/-- Scenario world: hub clients A and B (hub queues 0 and 1) have both joined
room "R"; their room-side clients carry queues 2 and 3. -/
def twoInRoom : World :=
  { queues := [(0, emptyQ), (1, emptyQ), (2, emptyQ), (3, emptyQ)],
    nextQ := 4,
    clientRecs := [(0, { id := "A", username := "A", sendQ := 0, roomID := "R" }),
                   (1, { id := "B", username := "B", sendQ := 1, roomID := "R" })],
    hubClients := [0, 1],
    rooms := [("R", { id := "R", name := "general",
                      clients := [{ id := "A", username := "A", sendQ := 2 },
                                  { id := "B", username := "B", sendQ := 3 }],
                      createdAt := "t0", createdBy := "A" })] }

/-- World for the leave claims: room "R" exists with sole member B; hub client
A (queue 0) is not a member of "R" though its current-room field names it. -/
def leaveWorld : World :=
  { queues := [(0, emptyQ), (1, emptyQ), (3, emptyQ)],
    nextQ := 4,
    clientRecs := [(0, { id := "A", username := "A", sendQ := 0, roomID := "R" }),
                   (1, { id := "B", username := "B", sendQ := 1, roomID := "R" })],
    hubClients := [0, 1],
    rooms := [("R", { id := "R", name := "general",
                      clients := [{ id := "B", username := "B", sendQ := 3 }],
                      createdAt := "t0", createdBy := "B" })] }

/-- World for the hub-unregister claims: hub client B (queue 1) is registered;
client X (queue 0) is allocated but absent from the hub's set. -/
def hubGhost : World :=
  { queues := [(0, emptyQ), (1, emptyQ)],
    nextQ := 2,
    clientRecs := [(0, { id := "X", username := "X", sendQ := 0, roomID := "" }),
                   (1, { id := "B", username := "B", sendQ := 1, roomID := "" })],
    hubClients := [1],
    rooms := [] }

/-! ### C1 -/

/-- Claim C1: the spec scenario expects that when member A of room "R" submits
the inbound record with a "text" type and content "hi", member B receives the
chat record.  In the code, `json.Unmarshal` into `RoomAction` succeeds on this
record (its `type` field is non-empty), so `readPump` routes it to
`handleRoomAction`, whose switch has no "text" case: the record is silently
dropped, the world is unchanged, and B receives nothing.  This theorem
evaluates the code at the claim's failing input. -/
theorem C1_text_chat_dropped :
    readPumpStep twoInRoom 0
      { mtype := "text", content := "hi", roomId := "", roomName := "", username := "" }
      "t1" "s" [] = twoInRoom := by
  decide

/-! ### C2 -/

/-- Claim C2 counterexample: room "R" is present, the requesting client has id
"A", and the room's only member has id "B" (the client is not a member), yet
`leaveRoom` answers `true` and leaves the world untouched — the claim demands
`false` here; and since the state is unchanged, an immediate second leave
answers `true` again rather than `false`. -/
theorem C2_counterexample :
    Manager.leaveRoom leaveWorld 0 "R" "t1" = (leaveWorld, true) ∧
    afind leaveWorld.rooms "R" =
      some { id := "R", name := "general",
             clients := [{ id := "B", username := "B", sendQ := 3 }],
             createdAt := "t0", createdBy := "B" } ∧
    afind leaveWorld.clientRecs 0 =
      some { id := "A", username := "A", sendQ := 0, roomID := "R" } := by
  decide

/-- Claim C2 (amended): `leaveRoom` answers `false` exactly when the addressed
room identifier is absent from the manager's map (or the requester is not an
allocated hub client, which cannot arise), and a `false` answer has no side
effects; when the room exists the answer is `true` even if the requester is
not a member, and in that non-member case there are again no side effects.
In particular leaving twice in a row answers `true`, not `false`, the second
time, as long as the room still exists. -/
theorem C2_leave_false_iff_room_absent (w : World) (cq : Nat) (rid now : String) :
    ((Manager.leaveRoom w cq rid now).2 =
      ((afind w.rooms rid).isSome && (afind w.clientRecs cq).isSome)) ∧
    (afind w.rooms rid = none → Manager.leaveRoom w cq rid now = (w, false)) ∧
    (∀ r c, afind w.rooms rid = some r → afind w.clientRecs cq = some c →
      r.clients.find? (fun rc => rc.id == c.id) = none →
      Manager.leaveRoom w cq rid now = (w, true)) := by
  refine ⟨?_, ?_, ?_⟩
  · unfold Manager.leaveRoom
    cases hr : afind w.rooms rid with
    | none => simp
    | some r =>
      cases hc : afind w.clientRecs cq with
      | none => simp
      | some c =>
        dsimp only
        cases hf : r.clients.find? (fun rc => rc.id == c.id) with
        | none => rfl
        | some rc => rfl
  · intro hr
    unfold Manager.leaveRoom
    rw [hr]
  · intro r c hr hc hf
    unfold Manager.leaveRoom
    rw [hr, hc]
    dsimp only
    rw [hf]

/-- Witness for C2's amended theorem at a concrete input: leaving the absent
room "X" answers `false` with no state change, and client A's leave of room
"R", of which it is not a member, answers `true` with no state change. -/
theorem C2_leave_false_iff_room_absent_witness :
    Manager.leaveRoom leaveWorld 0 "X" "t1" = (leaveWorld, false) ∧
    Manager.leaveRoom leaveWorld 0 "R" "t1" = (leaveWorld, true) :=
  ⟨(C2_leave_false_iff_room_absent leaveWorld 0 "X" "t1").2.1 (by decide),
   (C2_leave_false_iff_room_absent leaveWorld 0 "R" "t1").2.2
     { id := "R", name := "general",
       clients := [{ id := "B", username := "B", sendQ := 3 }],
       createdAt := "t0", createdBy := "B" }
     { id := "A", username := "A", sendQ := 0, roomID := "R" }
     (by decide) (by decide) (by decide)⟩

/-! ### C3 -/

/-- Claim C3 counterexample: client A (identity "A") is already a member of
room "R", every queue has space, and A's join succeeds — after it the member
set holds two entries with identity "A", not at most one. -/
theorem C3_counterexample :
    (Manager.joinRoom twoInRoom 0 "R" "t4").2.success = true ∧
    twoInRoom.rooms.map (fun p => p.2.clients.countP (fun rc => rc.id == "A")) = [1] ∧
    (Manager.joinRoom twoInRoom 0 "R" "t4").1.rooms.map
        (fun p => p.2.clients.countP (fun rc => rc.id == "A")) = [2] := by
  decide

/-- A room-register of a client whose queue key is not yet a member, into a
room none of whose members has a full queue, appends exactly that client. -/
theorem registerClient_fresh (qs : List (Nat × Queue)) (r : Room) (c : RClient)
    (now : String) (hP : Room.hasPtr r.clients c.sendQ = false)
    (hnd : ((r.clients ++ [c]).map RClient.sendQ).Nodup)
    (hlive : ∀ x ∈ r.clients, ∃ q, afind qs x.sendQ = some q ∧ q.msgs.length < q.cap) :
    (Room.registerClient qs r c now).2.clients = r.clients ++ [c] := by
  unfold Room.registerClient Room.broadcastMessage
  simp only [hP, Bool.false_eq_true, if_false]
  apply deliver_no_evict
  · exact hnd
  · intro x hx hsx
    rcases List.mem_append.mp hx with h1 | h1
    · exact hlive x h1
    · simp at h1
      subst h1
      exact absurd rfl hsx

/-- Claim C3 (amended): the join handler performs no duplicate check: whenever
the target room exists and the requester is an allocated hub client, it
registers a freshly allocated room-client record bound to the requester's
identity; provided no member is evicted by the welcome broadcast (no queue is
full), the number of member entries carrying the requester's identity grows by
exactly one — so a client already present in the room is double-registered
rather than rejected. -/
theorem C3_join_double_registers (w : World) (cq : Nat) (rid now : String)
    (r : Room) (c : HClient)
    (hr : afind w.rooms rid = some r) (hc : afind w.clientRecs cq = some c)
    (hnd : (r.clients.map RClient.sendQ).Nodup)
    (hfresh : ∀ rc ∈ r.clients, rc.sendQ ≠ w.nextQ)
    (hlive : ∀ rc ∈ r.clients, ∃ q, afind w.queues rc.sendQ = some q ∧ q.msgs.length < q.cap) :
    (Manager.joinRoom w cq rid now).2.success = true ∧
    ∃ r', afind (Manager.joinRoom w cq rid now).1.rooms rid = some r' ∧
      r'.clients.countP (fun rc => rc.id == c.id) =
        r.clients.countP (fun rc => rc.id == c.id) + 1 := by
  unfold Manager.joinRoom
  rw [hr, hc]
  dsimp only
  refine ⟨rfl, ?_⟩
  set rc : RClient := { id := c.id, username := c.username, sendQ := w.nextQ } with hrc
  set qs : List (Nat × Queue) :=
    ains w.queues w.nextQ { msgs := [], cap := 256, closedCount := 0 } with hqs
  have hP : Room.hasPtr r.clients rc.sendQ = false := by
    unfold Room.hasPtr
    rw [List.any_eq_false]
    intro x hx
    simpa using hfresh x hx
  have hnd' : ((r.clients ++ [rc]).map RClient.sendQ).Nodup := by
    rw [List.map_append, List.nodup_append]
    refine ⟨hnd, by simp, ?_⟩
    intro k hk
    simp only [List.map_cons, List.map_nil, List.mem_cons, List.not_mem_nil] at *
    rintro (h1 | h1)
    · obtain ⟨x, hx, hxk⟩ := List.mem_map.mp hk
      exact hfresh x hx (by rw [hxk, h1])
    · exact h1
  have hlive' : ∀ x ∈ r.clients, ∃ q, afind qs x.sendQ = some q ∧ q.msgs.length < q.cap := by
    intro x hx
    rw [hqs, afind_ains_ne _ _ _ _ (fun he => hfresh x hx he.symm)]
    exact hlive x hx
  have hreg := registerClient_fresh qs r rc now hP hnd' hlive'
  refine ⟨(Room.registerClient qs r rc now).2,
    afind_aset_self w.rooms rid _ r hr, ?_⟩
  rw [hreg, List.countP_append]
  simp [hrc]

/-- Witness for C3's amended theorem at the concrete scenario world. -/
theorem C3_join_double_registers_witness :
    (Manager.joinRoom twoInRoom 0 "R" "t4").2.success = true ∧
    ∃ r', afind (Manager.joinRoom twoInRoom 0 "R" "t4").1.rooms "R" = some r' ∧
      r'.clients.countP (fun rc => rc.id == "A") =
        ({ id := "R", name := "general",
           clients := [{ id := "A", username := "A", sendQ := 2 },
                       { id := "B", username := "B", sendQ := 3 }],
           createdAt := "t0", createdBy := "A" } : Room).clients.countP
          (fun rc => rc.id == "A") + 1 :=
  C3_join_double_registers twoInRoom 0 "R" "t4"
    { id := "R", name := "general",
      clients := [{ id := "A", username := "A", sendQ := 2 },
                  { id := "B", username := "B", sendQ := 3 }],
      createdAt := "t0", createdBy := "A" }
    { id := "A", username := "A", sendQ := 0, roomID := "R" }
    (by decide) (by decide) (by decide) (by decide)
    (fun rc hrc => by
      rcases List.mem_cons.mp hrc with rfl | h
      · exact ⟨emptyQ, by decide, by decide⟩
      · rcases List.mem_cons.mp h with rfl | h2
        · exact ⟨emptyQ, by decide, by decide⟩
        · simp at h2)

/-! ### C7 -/

/-- Claim C7 counterexample: with repeated clock readings `generateRoomID`
repeats itself: after one createRoom call the map's live identifiers are
exactly the generated id, and a second call with the same readings returns
that very id — an identifier *not* distinct from every live room's. -/
theorem C7_counterexample :
    (Manager.CreateRoomAsync
        (Manager.CreateRoomAsync initWorld "rm" "alice" "t0" "20240101000000"
          [0, 0, 0, 0, 0, 0]).1
        "rm2" "bob" "t1" "20240101000000" [0, 0, 0, 0, 0, 0]).2 ∈
      (Manager.CreateRoomAsync initWorld "rm" "alice" "t0" "20240101000000"
        [0, 0, 0, 0, 0, 0]).1.rooms.map Prod.fst := by
  decide

/-- Claim C7 (amended): `CreateRoomAsync` returns the clock-derived identifier
and the manager inserts a room under it, so an immediately following join with
the returned identifier by an allocated hub client succeeds; a join with an
identifier absent from the map fails with the message "Room not found" (note
the capitalization in the code).  Distinctness of the returned identifier from
live rooms' identifiers is not guaranteed: the id repeats whenever the clock
readings repeat, and the insert then overwrites the live room. -/
theorem C7_create_then_join (w : World) (name createdBy now s : String)
    (ns : List Nat) (cq : Nat) :
    afind (Manager.CreateRoomAsync w name createdBy now s ns).1.rooms
        (Manager.CreateRoomAsync w name createdBy now s ns).2 =
      some (NewRoom (generateRoomID s ns) name createdBy now) ∧
    (∀ c, afind w.clientRecs cq = some c →
      (Manager.joinRoom (Manager.CreateRoomAsync w name createdBy now s ns).1 cq
        (Manager.CreateRoomAsync w name createdBy now s ns).2 now).2.success = true) ∧
    (∀ rid, afind w.rooms rid = none →
      (Manager.joinRoom w cq rid now).2 =
        { success := false, room := none, message := "Room not found" }) := by
  have hfind : afind (Manager.CreateRoomAsync w name createdBy now s ns).1.rooms
      (Manager.CreateRoomAsync w name createdBy now s ns).2 =
      some (NewRoom (generateRoomID s ns) name createdBy now) := by
    unfold Manager.CreateRoomAsync Manager.createRoom
    exact afind_ains_self _ _ _
  refine ⟨hfind, ?_, ?_⟩
  · intro c hc
    unfold Manager.joinRoom
    rw [hfind]
    have hrecs : (Manager.CreateRoomAsync w name createdBy now s ns).1.clientRecs
        = w.clientRecs := rfl
    rw [hrecs, hc]
  · intro rid hrid
    unfold Manager.joinRoom
    rw [hrid]

/-- Witness for C7's amended theorem at concrete inputs. -/
theorem C7_create_then_join_witness :
    (Manager.joinRoom
        (Manager.CreateRoomAsync hubGhost "rm" "alice" "t0" "s6" [1, 2, 3, 4, 5, 6]).1 1
        (Manager.CreateRoomAsync hubGhost "rm" "alice" "t0" "s6" [1, 2, 3, 4, 5, 6]).2
        "t1").2.success = true ∧
    (Manager.joinRoom hubGhost 1 "nope" "t1").2 =
      { success := false, room := none, message := "Room not found" } :=
  ⟨(C7_create_then_join hubGhost "rm" "alice" "t0" "s6" [1, 2, 3, 4, 5, 6] 1).2.1
      { id := "B", username := "B", sendQ := 1, roomID := "" } (by decide),
   (C7_create_then_join hubGhost "rm" "alice" "t0" "s6" [1, 2, 3, 4, 5, 6] 1).2.2
      "nope" (by decide)⟩

/-! ### C8 -/

/-- Claim C8 counterexample: client X (queue 0) is allocated but absent from
the hub's set; unregistering it must be a no-op by the claim, yet member B's
queue (queue 1) receives the system "X left the chat" notice — the remaining
members' observable message streams change. -/
theorem C8_counterexample :
    (0 ∉ hubGhost.hubClients) ∧
    afind hubGhost.queues 1 = some { msgs := [], cap := 256, closedCount := 0 } ∧
    afind (Hub.unregister hubGhost 0 "t9").queues 1 =
      some { msgs := [OutMsg.system "X left the chat" "t9"], cap := 256,
             closedCount := 0 } := by
  decide

theorem natmap_id (l : List Nat) : l.map (fun c => c) = l := by simp

/-- Claim C8 (amended): on unregister of a present client the hub removes it
from the set and closes its queue (once), then broadcasts the system "left"
notice, delivered to every remaining member with queue space; on unregister of
an allocated client that is absent from the set, the client set and the
client's own queue are untouched, but the "left" notice is *still* broadcast
to the registered members — the absent case is not a no-op for the members'
observable message streams.  (Stated for states where no member's queue is
full, so the broadcast evicts nobody.) -/
theorem C8_unregister_always_announces (w : World) (cq : Nat) (c : HClient)
    (now : String) (hc : afind w.clientRecs cq = some c)
    (hnd : w.hubClients.Nodup)
    (hlive : ∀ k ∈ w.hubClients, ∃ q, afind w.queues k = some q ∧ q.msgs.length < q.cap) :
    (cq ∈ w.hubClients →
      (Hub.unregister w cq now).hubClients = w.hubClients.filter (fun x => x ≠ cq) ∧
      afind (Hub.unregister w cq now).queues cq = (afind w.queues cq).map bump ∧
      (∀ k ∈ w.hubClients, k ≠ cq →
        afind (Hub.unregister w cq now).queues k =
          (afind w.queues k).map (fun q => { q with
            msgs := q.msgs ++ [OutMsg.system (c.username ++ " left the chat") now] }))) ∧
    (cq ∉ w.hubClients →
      (Hub.unregister w cq now).hubClients = w.hubClients ∧
      afind (Hub.unregister w cq now).queues cq = afind w.queues cq ∧
      (∀ k ∈ w.hubClients,
        afind (Hub.unregister w cq now).queues k =
          (afind w.queues k).map (fun q => { q with
            msgs := q.msgs ++ [OutMsg.system (c.username ++ " left the chat") now] }))) := by
  unfold Hub.unregister Hub.broadcastMessage
  rw [hc]
  dsimp only
  constructor
  · intro hmem
    rw [if_pos hmem]
    dsimp only
    have hscope : ∀ k ∈ w.hubClients.filter (fun x => x ≠ cq), k ∈ w.hubClients ∧ k ≠ cq := by
      intro k hk
      have := List.mem_filter.mp hk
      exact ⟨this.1, by simpa using this.2⟩
    have hndf : ((w.hubClients.filter (fun x => x ≠ cq)).map (fun c => c)).Nodup := by
      rw [natmap_id]
      exact hnd.filter _
    have hlivef : ∀ k ∈ w.hubClients.filter (fun x => x ≠ cq),
        ∃ q, afind (closeQ w.queues cq) k = some q ∧ q.msgs.length < q.cap := by
      intro k hk
      obtain ⟨hk1, hk2⟩ := hscope k hk
      rw [afind_closeQ_ne _ _ _ (Ne.symm hk2)]
      exact hlive k hk1
    refine ⟨?_, ?_, ?_⟩
    · apply deliver_no_evict _ _ _ _ _ hndf
      intro k hk _
      exact hlivef k hk
    · rw [deliver_afind_not_mem _ _ _ _ _ cq (fun k hk => (hscope k hk).2)]
      exact afind_closeQ_self w.queues cq
    · intro k hk hkcq
      have hkf : k ∈ w.hubClients.filter (fun x => x ≠ cq) := by
        rw [List.mem_filter]
        exact ⟨hk, by simpa using hkcq⟩
      obtain ⟨qk, hqk, hqkroom⟩ := hlivef k hkf
      have hmn := deliver_member_notfull (fun c => c)
        (OutMsg.system (c.username ++ " left the chat") now) none
        (closeQ w.queues cq) (w.hubClients.filter (fun x => x ≠ cq))
        hndf hkf (by simp) hqk hqkroom
      rw [hmn.2]
      rw [afind_closeQ_ne _ _ _ (Ne.symm hkcq)] at hqk
      rw [hqk]
      rfl
  · intro hmem
    rw [if_neg hmem]
    dsimp only
    have hndf : (w.hubClients.map (fun c => c)).Nodup := by
      rw [natmap_id]
      exact hnd
    refine ⟨?_, ?_, ?_⟩
    · apply deliver_no_evict _ _ _ _ _ hndf
      intro k hk _
      exact hlive k hk
    · apply deliver_afind_not_mem
      intro k hk he
      exact hmem (he ▸ hk)
    · intro k hk
      obtain ⟨qk, hqk, hqkroom⟩ := hlive k hk
      have hmn := deliver_member_notfull (fun c => c)
        (OutMsg.system (c.username ++ " left the chat") now) none
        w.queues w.hubClients hndf hk (by simp) hqk hqkroom
      rw [hmn.2, hqk]
      rfl

/-- Witness for C8's amended theorem at the concrete ghost-client world: the
absent case with client X, showing B's stream still changes. -/
theorem C8_unregister_always_announces_witness :
    (Hub.unregister hubGhost 0 "t9").hubClients = hubGhost.hubClients ∧
    afind (Hub.unregister hubGhost 0 "t9").queues 1 =
      (afind hubGhost.queues 1).map (fun q => { q with
        msgs := q.msgs ++ [OutMsg.system ("X" ++ " left the chat") "t9"] }) := by
  have h := (C8_unregister_always_announces hubGhost 0
    { id := "X", username := "X", sendQ := 0, roomID := "" } "t9"
    (by decide) (by decide)
    (fun k hk => by
      rcases List.mem_cons.mp hk with rfl | h2
      · exact ⟨emptyQ, by decide, by decide⟩
      · simp at h2)).2 (by decide)
  exact ⟨h.1, h.2.2 1 (by decide)⟩

/-- A join addressed to an identifier absent from the room map fails with
"Room not found" and no state change. -/
theorem joinRoom_room_absent (w : World) (cq : Nat) (rid now : String)
    (h : afind w.rooms rid = none) :
    Manager.joinRoom w cq rid now =
      (w, { success := false, room := none, message := "Room not found" }) := by
  unfold Manager.joinRoom
  rw [h]

/-! ### C6 -/

/-- Claim C6 counterexample: after deleting room "R", a join addressed to "R"
does fail, but the failure message is "Room not found", not the claim's
"room not found". -/
theorem C6_counterexample :
    (Manager.joinRoom (Manager.deleteRoom twoInRoom "R") 0 "R" "t7").2.success = false ∧
    (Manager.joinRoom (Manager.deleteRoom twoInRoom "R") 0 "R" "t7").2.message
        = "Room not found" ∧
    "Room not found" ≠ "room not found" := by
  decide

/-- Claim C6 (amended): deleting a present room closes every member's outbound
queue (each close counter rises by one) and removes the room from the map, and
every subsequent join addressed to that identifier fails with the message
"Room not found" (capitalized as in the code); deleting an absent identifier
is a no-op with no state change. -/
theorem C6_delete_room (w : World) (rid : String) :
    (afind w.rooms rid = none → Manager.deleteRoom w rid = w) ∧
    (∀ r, afind w.rooms rid = some r → (r.clients.map RClient.sendQ).Nodup →
      afind (Manager.deleteRoom w rid).rooms rid = none ∧
      (∀ rc ∈ r.clients,
        afind (Manager.deleteRoom w rid).queues rc.sendQ =
          (afind w.queues rc.sendQ).map bump) ∧
      (∀ cq now, (Manager.joinRoom (Manager.deleteRoom w rid) cq rid now).2 =
        { success := false, room := none, message := "Room not found" })) := by
  constructor
  · intro h
    unfold Manager.deleteRoom
    rw [h]
  · intro r hr hnd
    have hdel : Manager.deleteRoom w rid =
        { w with queues := (r.clients.map RClient.sendQ).foldl closeQ w.queues,
                 rooms := adel w.rooms rid } := by
      unfold Manager.deleteRoom
      rw [hr]
    have habs : afind (Manager.deleteRoom w rid).rooms rid = none := by
      rw [hdel]
      exact afind_adel_self w.rooms rid
    refine ⟨habs, ?_, ?_⟩
    · intro rc hrc
      rw [hdel]
      exact afind_foldl_closeQ_mem _ _ _ hnd (List.mem_map.mpr ⟨rc, hrc, rfl⟩)
    · intro cq now
      rw [joinRoom_room_absent _ cq rid now habs]

/-- Witness for C6's amended theorem at the concrete scenario world. -/
theorem C6_delete_room_witness :
    Manager.deleteRoom twoInRoom "X" = twoInRoom ∧
    afind (Manager.deleteRoom twoInRoom "R").rooms "R" = none ∧
    afind (Manager.deleteRoom twoInRoom "R").queues 3 =
      (afind twoInRoom.queues 3).map bump ∧
    (Manager.joinRoom (Manager.deleteRoom twoInRoom "R") 1 "R" "t7").2 =
      { success := false, room := none, message := "Room not found" } := by
  have h1 := (C6_delete_room twoInRoom "X").1 (by decide)
  have h2 := (C6_delete_room twoInRoom "R").2
    { id := "R", name := "general",
      clients := [{ id := "A", username := "A", sendQ := 2 },
                  { id := "B", username := "B", sendQ := 3 }],
      createdAt := "t0", createdBy := "A" }
    (by decide) (by decide)
  exact ⟨h1, h2.1,
    h2.2.1 { id := "B", username := "B", sendQ := 3 } (by decide),
    h2.2.2 1 "t7"⟩

/-! ### C10 helpers -/

theorem leaveRoom_room_absent (w : World) (cq : Nat) (rid now : String)
    (h : afind w.rooms rid = none) :
    Manager.leaveRoom w cq rid now = (w, false) := by
  unfold Manager.leaveRoom
  rw [h]

theorem afind_selfSend_self (qs : List (Nat × Queue)) (cq : Nat) (m : OutMsg) :
    afind (selfSend qs cq m) cq =
      (afind qs cq).map (fun q => { q with msgs := q.msgs ++ [m] }) := by
  unfold selfSend
  cases h : afind qs cq with
  | none => simp [h]
  | some q => simp [afind_aset_self qs cq _ q h]

theorem hasPtr_of_mem {cs : List RClient} {rc : RClient} (h : rc ∈ cs) :
    Room.hasPtr cs rc.sendQ = true := by
  unfold Room.hasPtr
  rw [List.any_eq_true]
  exact ⟨rc, h, by simp⟩

/-- Unregistering a present member: close its queue, filter it out, broadcast
the goodbye over the remaining members with nil sender. -/
theorem unregisterClient_present (qs : List (Nat × Queue)) (r : Room)
    (rc : RClient) (now : String) (hmem : rc ∈ r.clients) :
    Room.unregisterClient qs r rc now =
      ((Room.broadcastMessage (closeQ qs rc.sendQ)
          (r.clients.filter (fun x => x.sendQ ≠ rc.sendQ))
          (OutMsg.system (rc.username ++ " left the room") now) none).1,
       { r with clients := (Room.broadcastMessage (closeQ qs rc.sendQ)
          (r.clients.filter (fun x => x.sendQ ≠ rc.sendQ))
          (OutMsg.system (rc.username ++ " left the room") now) none).2 }) := by
  unfold Room.unregisterClient
  rw [hasPtr_of_mem hmem]
  rfl

/-! ### C10 -/

/-- Claim C10: in the websocket "leave" handler, a leave submitted while the
client's current-room field is empty changes nothing at all; when the manager
reports the leave as unsuccessful (which happens exactly when the current room
id is absent from the map) no outbound record of any kind is enqueued to the
client and its current-room field — indeed the whole world — is unchanged;
only on a successful leave is the room_left confirmation enqueued on the
client's queue and the current-room field cleared. -/
theorem C10_leave_only_acts_on_success (w : World) (cq : Nat) (c : HClient)
    (now : String) (hc : afind w.clientRecs cq = some c) :
    (c.roomID = "" → handleLeave w cq now = w) ∧
    (c.roomID ≠ "" → afind w.rooms c.roomID = none → handleLeave w cq now = w) ∧
    (∀ r, c.roomID ≠ "" → afind w.rooms c.roomID = some r →
      (∀ rc ∈ r.clients, rc.sendQ ≠ cq) →
      afind (handleLeave w cq now).clientRecs cq = some { c with roomID := "" } ∧
      afind (handleLeave w cq now).queues cq =
        (afind w.queues cq).map (fun q =>
          { q with msgs := q.msgs ++ [OutMsg.roomLeft "Successfully left room"] })) := by
  refine ⟨?_, ?_, ?_⟩
  · intro h
    unfold handleLeave
    rw [hc]
    simp [h]
  · intro h hr
    unfold handleLeave
    rw [hc]
    dsimp only
    rw [if_pos h, leaveRoom_room_absent w cq c.roomID now hr]
    rfl
  · intro r h hr hdisj
    have hlv₀ : r.clients.find? (fun x => x.id == c.id) = none →
        Manager.leaveRoom w cq c.roomID now = (w, true) := by
      intro hf
      unfold Manager.leaveRoom
      rw [hr, hc]
      dsimp only
      rw [hf]
    have hlv₁ : ∀ rc, r.clients.find? (fun x => x.id == c.id) = some rc →
        Manager.leaveRoom w cq c.roomID now =
          ({ w with queues := (Room.unregisterClient w.queues r rc now).1,
                    rooms := aset w.rooms c.roomID (Room.unregisterClient w.queues r rc now).2 },
           true) := by
      intro rc hf
      unfold Manager.leaveRoom
      rw [hr, hc]
      dsimp only
      rw [hf]
    cases hf : r.clients.find? (fun x => x.id == c.id) with
    | none =>
      have hstep : handleLeave w cq now =
          { setRoomID w cq "" with
            queues := selfSend (setRoomID w cq "").queues cq
              (OutMsg.roomLeft "Successfully left room") } := by
        unfold handleLeave
        rw [hc]
        dsimp only
        rw [if_pos h, hlv₀ hf]
        rfl
      rw [hstep]
      have hrec : (setRoomID w cq "").clientRecs =
          aset w.clientRecs cq { c with roomID := "" } := by
        unfold setRoomID
        rw [hc]
      have hq : (setRoomID w cq "").queues = w.queues := by
        unfold setRoomID
        rw [hc]
      constructor
      · rw [show ({ setRoomID w cq "" with
            queues := selfSend (setRoomID w cq "").queues cq
              (OutMsg.roomLeft "Successfully left room") } : World).clientRecs
          = (setRoomID w cq "").clientRecs from rfl, hrec]
        exact afind_aset_self w.clientRecs cq _ c hc
      · rw [show ({ setRoomID w cq "" with
            queues := selfSend (setRoomID w cq "").queues cq
              (OutMsg.roomLeft "Successfully left room") } : World).queues
          = selfSend (setRoomID w cq "").queues cq
              (OutMsg.roomLeft "Successfully left room") from rfl, hq]
        exact afind_selfSend_self w.queues cq _
    | some rc =>
      have hmem : rc ∈ r.clients := List.mem_of_find?_eq_some hf
      have hrccq : rc.sendQ ≠ cq := hdisj rc hmem
      have hUq : afind (Room.unregisterClient w.queues r rc now).1 cq = afind w.queues cq := by
        rw [unregisterClient_present w.queues r rc now hmem]
        dsimp only
        unfold Room.broadcastMessage
        rw [deliver_afind_not_mem RClient.sendQ _ none _ _ cq
          (fun x hx => hdisj x (List.mem_of_mem_filter hx))]
        exact afind_closeQ_ne w.queues rc.sendQ cq hrccq
      set w1 : World :=
        { w with queues := (Room.unregisterClient w.queues r rc now).1,
                 rooms := aset w.rooms c.roomID (Room.unregisterClient w.queues r rc now).2 } with hw1
      have hstep : handleLeave w cq now =
          { setRoomID w1 cq "" with
            queues := selfSend (setRoomID w1 cq "").queues cq
              (OutMsg.roomLeft "Successfully left room") } := by
        unfold handleLeave
        rw [hc]
        dsimp only
        rw [if_pos h, hlv₁ rc hf]
        rfl
      rw [hstep]
      have hrec : (setRoomID w1 cq "").clientRecs =
          aset w.clientRecs cq { c with roomID := "" } := by
        unfold setRoomID
        rw [show w1.clientRecs = w.clientRecs from rfl, hc]
      have hq : (setRoomID w1 cq "").queues = w1.queues := by
        unfold setRoomID
        rw [show w1.clientRecs = w.clientRecs from rfl, hc]
      constructor
      · rw [show ({ setRoomID w1 cq "" with
            queues := selfSend (setRoomID w1 cq "").queues cq
              (OutMsg.roomLeft "Successfully left room") } : World).clientRecs
          = (setRoomID w1 cq "").clientRecs from rfl, hrec]
        exact afind_aset_self w.clientRecs cq _ c hc
      · rw [show ({ setRoomID w1 cq "" with
            queues := selfSend (setRoomID w1 cq "").queues cq
              (OutMsg.roomLeft "Successfully left room") } : World).queues
          = selfSend (setRoomID w1 cq "").queues cq
              (OutMsg.roomLeft "Successfully left room") from rfl, hq]
        rw [afind_selfSend_self w1.queues cq _, show w1.queues =
          (Room.unregisterClient w.queues r rc now).1 from rfl, hUq]

/-- Witness for C10 at concrete inputs: a leave with an empty current-room
field changes nothing (client B of `hubGhost`), and a successful leave (client
A of `leaveWorld`, whose current room "R" exists) clears the field and
enqueues exactly the room_left record. -/
theorem C10_leave_only_acts_on_success_witness :
    handleLeave hubGhost 1 "t5" = hubGhost ∧
    afind (handleLeave leaveWorld 0 "t6").clientRecs 0 =
      some { id := "A", username := "A", sendQ := 0, roomID := "" } ∧
    afind (handleLeave leaveWorld 0 "t6").queues 0 =
      (afind leaveWorld.queues 0).map (fun q =>
        { q with msgs := q.msgs ++ [OutMsg.roomLeft "Successfully left room"] }) := by
  have h1 := (C10_leave_only_acts_on_success hubGhost 1
    { id := "B", username := "B", sendQ := 1, roomID := "" } "t5" (by decide)).1 (by decide)
  have h2 := (C10_leave_only_acts_on_success leaveWorld 0
    { id := "A", username := "A", sendQ := 0, roomID := "R" } "t6" (by decide)).2.2
    { id := "R", name := "general",
      clients := [{ id := "B", username := "B", sendQ := 3 }],
      createdAt := "t0", createdBy := "B" }
    (by decide) (by decide) (by decide)
  exact ⟨h1, h2.1, h2.2⟩

/-! ### C4 -/

/-- A two-slot queue that is full. -/
def fullQ2 : Queue :=
  { msgs := [OutMsg.system "x" "t", OutMsg.system "x" "t"], cap := 2, closedCount := 0 }

/-- Claim C4: during a single broadcast pass over the Hub's client set or over
a Room's member set, every recipient (other than the sender) whose queue is
full at delivery time is treated as unresponsive within that same pass: its
queue is closed (the close counter rises by one, the buffer is not retried)
and it is removed from the set, while every other non-sender recipient with
queue space still receives the payload in the same pass. -/
theorem C4_full_queue_evicted_in_pass :
    (∀ (qs : List (Nat × Queue)) (cs : List Nat) (m : OutMsg) (s : Option Nat)
        (c : Nat) (q : Queue), cs.Nodup → c ∈ cs → ¬ s = some c →
      afind qs c = some q → ¬ q.msgs.length < q.cap →
      c ∉ (Hub.broadcastMessage qs cs m s).2 ∧
      afind (Hub.broadcastMessage qs cs m s).1 c =
        some { q with closedCount := q.closedCount + 1 } ∧
      (∀ c' q', c' ∈ cs → ¬ s = some c' → afind qs c' = some q' →
        q'.msgs.length < q'.cap →
        c' ∈ (Hub.broadcastMessage qs cs m s).2 ∧
        afind (Hub.broadcastMessage qs cs m s).1 c' =
          some { q' with msgs := q'.msgs ++ [m] })) ∧
    (∀ (qs : List (Nat × Queue)) (cs : List RClient) (m : OutMsg) (s : Option Nat)
        (c : RClient) (q : Queue), (cs.map RClient.sendQ).Nodup → c ∈ cs →
      ¬ s = some c.sendQ → afind qs c.sendQ = some q → ¬ q.msgs.length < q.cap →
      (∀ x ∈ (Room.broadcastMessage qs cs m s).2, x.sendQ ≠ c.sendQ) ∧
      afind (Room.broadcastMessage qs cs m s).1 c.sendQ =
        some { q with closedCount := q.closedCount + 1 } ∧
      (∀ c' q', c' ∈ cs → ¬ s = some c'.sendQ → afind qs c'.sendQ = some q' →
        q'.msgs.length < q'.cap →
        c' ∈ (Room.broadcastMessage qs cs m s).2 ∧
        afind (Room.broadcastMessage qs cs m s).1 c'.sendQ =
          some { q' with msgs := q'.msgs ++ [m] })) := by
  constructor
  · intro qs cs m s c q hnd hc hs hq hroom
    have hnd' : (cs.map (fun x => x)).Nodup := by
      rw [natmap_id]
      exact hnd
    have hev := deliver_member_evicted (fun x => x) m s qs cs hnd' hc hs hq hroom
    refine ⟨?_, hev.2, ?_⟩
    · intro hcmem
      exact hev.1 c hcmem rfl
    · intro c' q' hc' hs' hq' hroom'
      exact deliver_member_notfull (fun x => x) m s qs cs hnd' hc' hs' hq' hroom'
  · intro qs cs m s c q hnd hc hs hq hroom
    have hev := deliver_member_evicted RClient.sendQ m s qs cs hnd hc hs hq hroom
    exact ⟨hev.1, hev.2, fun c' q' hc' hs' hq' hroom' =>
      deliver_member_notfull RClient.sendQ m s qs cs hnd hc' hs' hq' hroom'⟩

/-- Witness for C4 at a concrete pass: member 1's two-slot queue is full, so
the pass closes it and drops the member, while member 0 still receives the
payload. -/
theorem C4_full_queue_evicted_in_pass_witness :
    1 ∉ (Hub.broadcastMessage [(0, emptyQ), (1, fullQ2)] [0, 1]
          (OutMsg.system "m" "t") none).2 ∧
    afind (Hub.broadcastMessage [(0, emptyQ), (1, fullQ2)] [0, 1]
          (OutMsg.system "m" "t") none).1 1 =
      some { fullQ2 with closedCount := fullQ2.closedCount + 1 } ∧
    0 ∈ (Hub.broadcastMessage [(0, emptyQ), (1, fullQ2)] [0, 1]
          (OutMsg.system "m" "t") none).2 ∧
    afind (Hub.broadcastMessage [(0, emptyQ), (1, fullQ2)] [0, 1]
          (OutMsg.system "m" "t") none).1 0 =
      some { emptyQ with msgs := emptyQ.msgs ++ [OutMsg.system "m" "t"] } := by
  have h := C4_full_queue_evicted_in_pass.1 [(0, emptyQ), (1, fullQ2)] [0, 1]
    (OutMsg.system "m" "t") none 1 fullQ2 (by decide) (by decide) (by decide)
    (by decide) (by decide)
  have h0 := h.2.2 0 emptyQ (by decide) (by decide) (by decide) (by decide)
  exact ⟨h.1, h.2.1, h0.1, h0.2⟩

/-! ### C5 -/

/-- Claim C5: a broadcast pass carrying a specified sender never enqueues the
payload on the sender's own outbound queue (the sender's queue is completely
untouched by the pass, in both the Hub scope and the Room scope), and it
enqueues the payload exactly once on the queue of every other member
registered at the time of the pass — the buffer becomes its old contents with
exactly one copy appended — except a member evicted during the pass for having
a full queue, whose buffer is unchanged. -/
theorem C5_sender_excluded_others_once :
    (∀ (qs : List (Nat × Queue)) (cs : List Nat) (m : OutMsg) (sq : Nat),
      afind (Hub.broadcastMessage qs cs m (some sq)).1 sq = afind qs sq ∧
      (cs.Nodup → ∀ c q, c ∈ cs → c ≠ sq → afind qs c = some q →
        (q.msgs.length < q.cap →
          afind (Hub.broadcastMessage qs cs m (some sq)).1 c =
            some { q with msgs := q.msgs ++ [m] }) ∧
        (¬ q.msgs.length < q.cap →
          c ∉ (Hub.broadcastMessage qs cs m (some sq)).2 ∧
          afind (Hub.broadcastMessage qs cs m (some sq)).1 c =
            some { q with closedCount := q.closedCount + 1 }))) ∧
    (∀ (qs : List (Nat × Queue)) (cs : List RClient) (m : OutMsg) (sq : Nat),
      afind (Room.broadcastMessage qs cs m (some sq)).1 sq = afind qs sq ∧
      ((cs.map RClient.sendQ).Nodup → ∀ c q, c ∈ cs → c.sendQ ≠ sq →
        afind qs c.sendQ = some q →
        (q.msgs.length < q.cap →
          afind (Room.broadcastMessage qs cs m (some sq)).1 c.sendQ =
            some { q with msgs := q.msgs ++ [m] }) ∧
        (¬ q.msgs.length < q.cap →
          (∀ x ∈ (Room.broadcastMessage qs cs m (some sq)).2, x.sendQ ≠ c.sendQ) ∧
          afind (Room.broadcastMessage qs cs m (some sq)).1 c.sendQ =
            some { q with closedCount := q.closedCount + 1 }))) := by
  constructor
  · intro qs cs m sq
    refine ⟨deliver_afind_sender (fun x => x) m (some sq) qs cs sq rfl, ?_⟩
    intro hnd c q hc hcsq hq
    have hnd' : (cs.map (fun x => x)).Nodup := by
      rw [natmap_id]
      exact hnd
    have hs : ¬ (some sq : Option Nat) = some c := by
      simp [Ne.symm hcsq]
    constructor
    · intro hroom
      exact (deliver_member_notfull (fun x => x) m (some sq) qs cs hnd' hc hs hq hroom).2
    · intro hroom
      have hev := deliver_member_evicted (fun x => x) m (some sq) qs cs hnd' hc hs hq hroom
      exact ⟨fun hcm => hev.1 c hcm rfl, hev.2⟩
  · intro qs cs m sq
    refine ⟨deliver_afind_sender RClient.sendQ m (some sq) qs cs sq rfl, ?_⟩
    intro hnd c q hc hcsq hq
    have hs : ¬ (some sq : Option Nat) = some c.sendQ := by
      simp [Ne.symm hcsq]
    constructor
    · intro hroom
      exact (deliver_member_notfull RClient.sendQ m (some sq) qs cs hnd hc hs hq hroom).2
    · intro hroom
      have hev := deliver_member_evicted RClient.sendQ m (some sq) qs cs hnd hc hs hq hroom
      exact ⟨hev.1, hev.2⟩

/-- Witness for C5 at a concrete pass: sender 0's queue is untouched, member 1
receives exactly one copy. -/
theorem C5_sender_excluded_others_once_witness :
    afind (Hub.broadcastMessage [(0, emptyQ), (1, emptyQ)] [0, 1]
          (OutMsg.system "m" "t") (some 0)).1 0 =
      afind [(0, emptyQ), (1, emptyQ)] 0 ∧
    afind (Hub.broadcastMessage [(0, emptyQ), (1, emptyQ)] [0, 1]
          (OutMsg.system "m" "t") (some 0)).1 1 =
      some { emptyQ with msgs := emptyQ.msgs ++ [OutMsg.system "m" "t"] } := by
  have h := C5_sender_excluded_others_once.1 [(0, emptyQ), (1, emptyQ)] [0, 1]
    (OutMsg.system "m" "t") 0
  exact ⟨h.1, ((h.2 (by decide) 1 emptyQ (by decide) (by decide) (by decide)).1 (by decide))⟩

/-! ### C9: the close-at-most-once invariant -/

/-- The queue keys referenced by the member sets of a room map. -/
def roomQids (rooms : List (String × Room)) : List Nat :=
  (rooms.map (fun p => p.2.clients.map RClient.sendQ)).flatten

/-- All queue keys currently referenced by a live membership set (the hub's
client set or the member set of a room in the manager's map). -/
def liveQids (w : World) : List Nat :=
  w.hubClients ++ roomQids w.rooms

/-- The state invariant maintained by every command the system processes:
queue keys are distinct and below the allocation counter, every queue's close
counter is at most one, the keys referenced by live sets are pairwise distinct
across all sets, and every queue referenced by a live set is still open. -/
structure WInv (w : World) : Prop where
  qKeysNodup : (w.queues.map Prod.fst).Nodup
  qKeysLt : ∀ k ∈ w.queues.map Prod.fst, k < w.nextQ
  closedLe : ∀ k q, afind w.queues k = some q → q.closedCount ≤ 1
  roomKeysNodup : (w.rooms.map Prod.fst).Nodup
  liveNodup : (liveQids w).Nodup
  liveOpen : ∀ k ∈ liveQids w, ∃ q, afind w.queues k = some q ∧ q.closedCount = 0

theorem roomQids_nil : roomQids [] = [] := rfl

theorem roomQids_cons (p : String × Room) (l : List (String × Room)) :
    roomQids (p :: l) = p.2.clients.map RClient.sendQ ++ roomQids l := by
  simp [roomQids]

theorem roomQids_append (l₁ l₂ : List (String × Room)) :
    roomQids (l₁ ++ l₂) = roomQids l₁ ++ roomQids l₂ := by
  simp [roomQids]

theorem live_lt_next {w : World} (h : WInv w) {k : Nat} (hk : k ∈ liveQids w) :
    k < w.nextQ := by
  obtain ⟨q, hq, _⟩ := h.liveOpen k hk
  exact h.qKeysLt k (afind_mem_keys hq)

theorem fresh_not_live {w : World} (h : WInv w) : w.nextQ ∉ liveQids w := by
  intro hk
  exact absurd (live_lt_next h hk) (lt_irrefl _)

theorem fresh_not_key {w : World} (h : WInv w) : afind w.queues w.nextQ = none := by
  apply afind_eq_none_of_not_mem
  intro hk
  exact absurd (h.qKeysLt _ hk) (lt_irrefl _)

theorem ains_eq_aset {κ α : Type} [DecidableEq κ] {l : List (κ × α)} {k : κ}
    {v0 : α} (h : afind l k = some v0) (v : α) : ains l k v = aset l k v := by
  induction l with
  | nil => simp [afind] at h
  | cons p rest ih =>
    by_cases hk : p.1 = k
    · simp [ains, aset, hk]
    · simp [afind, hk] at h
      simp [ains, aset, hk, ih h]

theorem adel_eq_of_not_mem {κ α : Type} [DecidableEq κ] {l : List (κ × α)}
    {k : κ} (h : afind l k = none) : adel l k = l := by
  induction l with
  | nil => rfl
  | cons p rest ih =>
    by_cases hk : p.1 = k
    · simp [afind, hk] at h
    · simp [afind, hk] at h
      simp [adel, hk, ih h]

theorem hub_nodup {w : World} (h : WInv w) : w.hubClients.Nodup :=
  ((List.nodup_append.mp h.liveNodup).1)

theorem hub_room_disjoint {w : World} (h : WInv w) :
    ∀ k ∈ w.hubClients, k ∉ roomQids w.rooms := by
  intro k hk
  exact (List.nodup_append.mp h.liveNodup).2.2 hk

theorem liveQids_eq {w w' : World} (hh : w'.hubClients = w.hubClients)
    (hr : w'.rooms = w.rooms) : liveQids w' = liveQids w := by
  unfold liveQids
  rw [hh, hr]

/-- `WInv` only reads the queues, the allocation counter, the hub set and the
room map, so any world agreeing on those fields inherits it. -/
theorem WInv_congr {w w' : World} (h : WInv w) (hq : w'.queues = w.queues)
    (hn : w'.nextQ = w.nextQ) (hh : w'.hubClients = w.hubClients)
    (hr : w'.rooms = w.rooms) : WInv w' := by
  refine ⟨?_, ?_, ?_, ?_, ?_, ?_⟩
  · rw [hq]; exact h.qKeysNodup
  · rw [hq, hn]; exact h.qKeysLt
  · rw [hq]; exact h.closedLe
  · rw [hr]; exact h.roomKeysNodup
  · rw [liveQids_eq hh hr]; exact h.liveNodup
  · rw [liveQids_eq hh hr, hq]; exact h.liveOpen

theorem selfSend_keys (qs : List (Nat × Queue)) (cq : Nat) (m : OutMsg) :
    (selfSend qs cq m).map Prod.fst = qs.map Prod.fst := by
  unfold selfSend
  cases h : afind qs cq with
  | none => rfl
  | some q => exact aset_keys _ _ _

theorem afind_selfSend_ne (qs : List (Nat × Queue)) (cq : Nat) (m : OutMsg)
    (k : Nat) (h : cq ≠ k) : afind (selfSend qs cq m) k = afind qs k := by
  unfold selfSend
  cases hq : afind qs cq with
  | none => rfl
  | some q => exact afind_aset_ne _ _ _ _ h

theorem WInv_selfSend {w : World} (h : WInv w) (cq : Nat) (m : OutMsg) :
    WInv { w with queues := selfSend w.queues cq m } := by
  have hpt : ∀ k, afind (selfSend w.queues cq m) k = afind w.queues k ∨
      afind (selfSend w.queues cq m) k =
        (afind w.queues k).map (fun q => { q with msgs := q.msgs ++ [m] }) := by
    intro k
    by_cases hk : cq = k
    · subst hk
      exact Or.inr (afind_selfSend_self _ _ _)
    · exact Or.inl (afind_selfSend_ne _ _ _ _ hk)
  refine ⟨?_, ?_, ?_, h.roomKeysNodup, h.liveNodup, ?_⟩
  · show ((selfSend w.queues cq m).map Prod.fst).Nodup
    rw [selfSend_keys]
    exact h.qKeysNodup
  · show ∀ k ∈ (selfSend w.queues cq m).map Prod.fst, k < w.nextQ
    rw [selfSend_keys]
    exact h.qKeysLt
  · intro k q hq
    rcases hpt k with he | he <;> rw [he] at hq
    · exact h.closedLe k q hq
    · cases hq0 : afind w.queues k with
      | none =>
        rw [hq0] at hq
        exact absurd hq (by simp)
      | some q0 =>
        rw [hq0, Option.map_some'] at hq
        cases hq
        exact h.closedLe k q0 hq0
  · intro k hk
    obtain ⟨q0, hq0, hq0c⟩ := h.liveOpen k hk
    rcases hpt k with he | he
    · exact ⟨q0, by rw [he]; exact hq0, hq0c⟩
    · exact ⟨{ q0 with msgs := q0.msgs ++ [m] },
        by rw [he, hq0, Option.map_some'], hq0c⟩

theorem WInv_setRoomID {w : World} (h : WInv w) (cq : Nat) (rid : String) :
    WInv (setRoomID w cq rid) := by
  unfold setRoomID
  cases hc : afind w.clientRecs cq with
  | none => exact h
  | some c =>
    exact WInv_congr h rfl rfl rfl rfl

theorem WInv_initWorld : WInv initWorld := by
  refine ⟨?_, ?_, ?_, ?_, ?_, ?_⟩ <;> simp [initWorld, liveQids, roomQids, afind]

/-- Core preservation lemma for a hub broadcast pass: starting from an
invariant state, with pre-pass queues `qs₁` that keep the key set, raise no
close counter beyond one bump of an open queue, agree with the old queues on
every room-referenced key, and keep every scope member open — the pass
preserves the invariant when the scope together with the room-referenced keys
is duplicate-free. -/
theorem WInv_hub_pass {w : World} (h : WInv w) (qs₁ : List (Nat × Queue))
    (m : OutMsg) (s : Option Nat) (scope : List Nat)
    (hK : qs₁.map Prod.fst = w.queues.map Prod.fst)
    (hC : ∀ k q', afind qs₁ k = some q' → ∃ q, afind w.queues k = some q ∧
      q'.closedCount ≤ max q.closedCount 1)
    (hO : ∀ k ∈ scope, ∃ q, afind qs₁ k = some q ∧ q.closedCount = 0)
    (hR : ∀ k ∈ roomQids w.rooms, afind qs₁ k = afind w.queues k)
    (hS : (scope ++ roomQids w.rooms).Nodup) :
    WInv { w with queues := (Hub.broadcastMessage qs₁ scope m s).1,
                  hubClients := (Hub.broadcastMessage qs₁ scope m s).2 } := by
  have hSd := List.nodup_append.mp hS
  have hscopend : (scope.map (fun x => x)).Nodup := by
    rw [natmap_id]
    exact hSd.1
  have hdisj : ∀ k ∈ roomQids w.rooms, k ∉ scope := by
    intro k hk hks
    exact hSd.2.2 hks hk
  unfold Hub.broadcastMessage
  refine ⟨?_, ?_, ?_, h.roomKeysNodup, ?_, ?_⟩
  · show ((deliver (fun c => c) m s qs₁ scope).1.map Prod.fst).Nodup
    rw [deliver_keys, hK]
    exact h.qKeysNodup
  · show ∀ k ∈ (deliver (fun c => c) m s qs₁ scope).1.map Prod.fst, k < w.nextQ
    rw [deliver_keys, hK]
    exact h.qKeysLt
  · intro k q' hq'
    obtain ⟨q₁, hq₁, hle₁⟩ :=
      deliver_closed_le (fun x => x) m s qs₁ scope hscopend hO k q' hq'
    obtain ⟨q₀, hq₀, hle₀⟩ := hC k q₁ hq₁
    have h₀ := h.closedLe k q₀ hq₀
    omega
  · show ((deliver (fun c => c) m s qs₁ scope).2 ++ roomQids w.rooms).Nodup
    exact ((deliver_sublist (fun x => x) m s qs₁ scope).append
      (List.Sublist.refl _)).nodup hS
  · intro k hk
    rcases List.mem_append.mp hk with hkm | hkm
    · exact deliver_kept_open (fun x => x) m s qs₁ scope hscopend hO hkm
    · show ∃ q, afind (deliver (fun c => c) m s qs₁ scope).1 k = some q ∧
        q.closedCount = 0
      rw [deliver_afind_not_mem (fun x => x) m s qs₁ scope k
        (fun c hc he => hdisj k hkm (he ▸ hc)), hR k hkm]
      exact h.liveOpen k (List.mem_append.mpr (Or.inr hkm))

/-- Core preservation lemma for a room broadcast pass storing the surviving
member list back under the room's key.  `l₁/l₂` decompose the room map at the
addressed room, `qs₁` are the pre-pass queues, `scope` the member list the
pass runs over. -/
theorem WInv_room_pass {w : World} (h : WInv w) (rid : String) (r : Room)
    (l₁ l₂ : List (String × Room))
    (hset : ∀ r', aset w.rooms rid r' = l₁ ++ (rid, r') :: l₂)
    (m : OutMsg) (s : Option Nat) (scope : List RClient)
    (qs₁ : List (Nat × Queue))
    (hK : qs₁.map Prod.fst = w.queues.map Prod.fst)
    (hC : ∀ k q', afind qs₁ k = some q' → ∃ q, afind w.queues k = some q ∧
      q'.closedCount ≤ max q.closedCount 1)
    (hO : ∀ x ∈ scope, ∃ q, afind qs₁ x.sendQ = some q ∧ q.closedCount = 0)
    (hQ : ∀ k, k ∈ w.hubClients ∨ k ∈ roomQids l₁ ∨ k ∈ roomQids l₂ →
      afind qs₁ k = afind w.queues k)
    (hLive : ∀ k, k ∈ w.hubClients ∨ k ∈ roomQids l₁ ∨ k ∈ roomQids l₂ →
      ∃ q, afind w.queues k = some q ∧ q.closedCount = 0)
    (hS : (w.hubClients ++ (roomQids l₁ ++ (scope.map RClient.sendQ ++ roomQids l₂))).Nodup) :
    WInv { w with
      queues := (Room.broadcastMessage qs₁ scope m s).1,
      rooms := aset w.rooms rid
        { r with clients := (Room.broadcastMessage qs₁ scope m s).2 } } := by
  have hSd1 := List.nodup_append.mp hS
  have hSd2 := List.nodup_append.mp hSd1.2.1
  have hSd3 := List.nodup_append.mp hSd2.2.1
  have hscopend : (scope.map RClient.sendQ).Nodup := hSd3.1
  have hnotin : ∀ k, k ∈ w.hubClients ∨ k ∈ roomQids l₁ ∨ k ∈ roomQids l₂ →
      ∀ x ∈ scope, x.sendQ ≠ k := by
    intro k hk x hx he
    have hsm : k ∈ scope.map RClient.sendQ := List.mem_map.mpr ⟨x, hx, he⟩
    rcases hk with hk | hk | hk
    · exact hSd1.2.2 hk (List.mem_append.mpr
        (Or.inr (List.mem_append.mpr (Or.inl hsm))))
    · exact hSd2.2.2 hk (List.mem_append.mpr (Or.inl hsm))
    · exact hSd3.2.2 hsm hk
  have hrooms' : roomQids (aset w.rooms rid
      { r with clients := (Room.broadcastMessage qs₁ scope m s).2 }) =
      roomQids l₁ ++
        (((Room.broadcastMessage qs₁ scope m s).2.map RClient.sendQ) ++ roomQids l₂) := by
    rw [hset, roomQids_append, roomQids_cons]
  unfold Room.broadcastMessage at *
  refine ⟨?_, ?_, ?_, ?_, ?_, ?_⟩
  · show ((deliver RClient.sendQ m s qs₁ scope).1.map Prod.fst).Nodup
    rw [deliver_keys, hK]
    exact h.qKeysNodup
  · show ∀ k ∈ (deliver RClient.sendQ m s qs₁ scope).1.map Prod.fst, k < w.nextQ
    rw [deliver_keys, hK]
    exact h.qKeysLt
  · intro k q' hq'
    obtain ⟨q₁, hq₁, hle₁⟩ :=
      deliver_closed_le RClient.sendQ m s qs₁ scope hscopend hO k q' hq'
    obtain ⟨q₀, hq₀, hle₀⟩ := hC k q₁ hq₁
    have h₀ := h.closedLe k q₀ hq₀
    omega
  · show ((aset w.rooms rid _).map Prod.fst).Nodup
    rw [aset_keys]
    exact h.roomKeysNodup
  · show (w.hubClients ++ roomQids (aset w.rooms rid _)).Nodup
    rw [hrooms']
    refine List.Sublist.nodup ?_ hS
    exact (List.Sublist.refl _).append ((List.Sublist.refl _).append
      (((deliver_sublist RClient.sendQ m s qs₁ scope).map RClient.sendQ).append
        (List.Sublist.refl _)))
  · intro k hk
    show ∃ q, afind (deliver RClient.sendQ m s qs₁ scope).1 k = some q ∧
      q.closedCount = 0
    have hk' : k ∈ w.hubClients ++ roomQids (aset w.rooms rid
        { r with clients := (deliver RClient.sendQ m s qs₁ scope).2 }) := hk
    rw [hrooms'] at hk'
    rcases List.mem_append.mp hk' with hkh | hkr
    · rw [deliver_afind_not_mem RClient.sendQ m s qs₁ scope k
        (hnotin k (Or.inl hkh)), hQ k (Or.inl hkh)]
      exact hLive k (Or.inl hkh)
    · rcases List.mem_append.mp hkr with hk1 | hkr2
      · rw [deliver_afind_not_mem RClient.sendQ m s qs₁ scope k
          (hnotin k (Or.inr (Or.inl hk1))), hQ k (Or.inr (Or.inl hk1))]
        exact hLive k (Or.inr (Or.inl hk1))
      · rcases List.mem_append.mp hkr2 with hkmem | hk2
        · obtain ⟨x, hx, hxk⟩ := List.mem_map.mp hkmem
          obtain ⟨q', hq', hq'c⟩ :=
            deliver_kept_open RClient.sendQ m s qs₁ scope hscopend hO hx
          exact ⟨q', by rw [← hxk]; exact hq', hq'c⟩
        · rw [deliver_afind_not_mem RClient.sendQ m s qs₁ scope k
            (hnotin k (Or.inr (Or.inr hk2))), hQ k (Or.inr (Or.inr hk2))]
          exact hLive k (Or.inr (Or.inr hk2))

theorem liveQids_split {w : World} (l₁ l₂ : List (String × Room)) (rid : String)
    (r : Room) (hsplit : w.rooms = l₁ ++ (rid, r) :: l₂) :
    liveQids w = w.hubClients ++
      (roomQids l₁ ++ (r.clients.map RClient.sendQ ++ roomQids l₂)) := by
  unfold liveQids
  rw [hsplit, roomQids_append, roomQids_cons]

theorem liveOpen_of_parts {w : World} (h : WInv w) {l₁ l₂ : List (String × Room)}
    {rid : String} {r : Room} (hsplit : w.rooms = l₁ ++ (rid, r) :: l₂) :
    ∀ k, k ∈ w.hubClients ∨ k ∈ roomQids l₁ ∨ k ∈ roomQids l₂ →
      ∃ q, afind w.queues k = some q ∧ q.closedCount = 0 := by
  intro k hk
  apply h.liveOpen
  rw [liveQids_split l₁ l₂ rid r hsplit]
  rcases hk with hk | hk | hk
  · exact List.mem_append.mpr (Or.inl hk)
  · exact List.mem_append.mpr (Or.inr (List.mem_append.mpr (Or.inl hk)))
  · exact List.mem_append.mpr (Or.inr (List.mem_append.mpr (Or.inr
      (List.mem_append.mpr (Or.inr hk)))))

theorem memberOpen {w : World} (h : WInv w) {l₁ l₂ : List (String × Room)}
    {rid : String} {r : Room} (hsplit : w.rooms = l₁ ++ (rid, r) :: l₂) :
    ∀ x ∈ r.clients, ∃ q, afind w.queues x.sendQ = some q ∧ q.closedCount = 0 := by
  intro x hx
  apply h.liveOpen
  rw [liveQids_split l₁ l₂ rid r hsplit]
  exact List.mem_append.mpr (Or.inr (List.mem_append.mpr (Or.inr
    (List.mem_append.mpr (Or.inl (List.mem_map.mpr ⟨x, hx, rfl⟩))))))

theorem memberLt {w : World} (h : WInv w) {l₁ l₂ : List (String × Room)}
    {rid : String} {r : Room} (hsplit : w.rooms = l₁ ++ (rid, r) :: l₂) :
    ∀ x ∈ r.clients, x.sendQ < w.nextQ := by
  intro x hx
  obtain ⟨q, hq, _⟩ := memberOpen h hsplit x hx
  exact h.qKeysLt _ (afind_mem_keys hq)

theorem nodup_insert_middle {α : Type} {a : α} {l₁ l₂ l₃ l₄ : List α}
    (hnd : (l₁ ++ (l₂ ++ (l₃ ++ l₄))).Nodup)
    (ha : a ∉ l₁ ++ (l₂ ++ (l₃ ++ l₄))) :
    (l₁ ++ (l₂ ++ ((l₃ ++ [a]) ++ l₄))).Nodup := by
  have h1 : l₁ ++ (l₂ ++ ((l₃ ++ [a]) ++ l₄)) = (l₁ ++ l₂ ++ l₃) ++ a :: l₄ := by
    simp
  have h2 : l₁ ++ (l₂ ++ (l₃ ++ l₄)) = (l₁ ++ l₂ ++ l₃) ++ l₄ := by
    simp
  rw [h2] at hnd ha
  rw [h1, List.nodup_middle, List.nodup_cons]
  exact ⟨ha, hnd⟩

/-- Allocating a fresh 256-slot queue preserves the invariant. -/
theorem WInv_alloc {w : World} (h : WInv w) :
    WInv { w with
      queues := ains w.queues w.nextQ { msgs := [], cap := 256, closedCount := 0 },
      nextQ := w.nextQ + 1 } := by
  have hfresh := fresh_not_key h
  have happ := ains_eq_append (l := w.queues) (k := w.nextQ)
    { msgs := [], cap := 256, closedCount := 0 } hfresh
  refine ⟨?_, ?_, ?_, h.roomKeysNodup, h.liveNodup, ?_⟩
  · show ((ains w.queues w.nextQ _).map Prod.fst).Nodup
    rw [happ, List.map_append, List.nodup_append]
    refine ⟨h.qKeysNodup, by simp, ?_⟩
    intro k hk
    simp only [List.map_cons, List.map_nil, List.mem_cons, List.not_mem_nil, or_false]
    intro he
    subst he
    exact absurd (h.qKeysLt _ hk) (lt_irrefl _)
  · show ∀ k ∈ (ains w.queues w.nextQ _).map Prod.fst, k < w.nextQ + 1
    rw [happ, List.map_append]
    intro k hk
    rcases List.mem_append.mp hk with hk | hk
    · exact Nat.lt_succ_of_lt (h.qKeysLt k hk)
    · simp at hk
      subst hk
      exact Nat.lt_succ_self _
  · intro k q hq
    by_cases hk : w.nextQ = k
    · subst hk
      rw [afind_ains_self] at hq
      cases hq
      decide
    · rw [afind_ains_ne _ _ _ _ hk] at hq
      exact h.closedLe k q hq
  · intro k hk
    have hk' : k ∈ liveQids w := hk
    have hlt := live_lt_next h hk'
    show ∃ q, afind (ains w.queues w.nextQ
      { msgs := [], cap := 256, closedCount := 0 }) k = some q ∧ q.closedCount = 0
    rw [afind_ains_ne w.queues w.nextQ k _ (Nat.ne_of_gt hlt)]
    exact h.liveOpen k hk'

/-- Inserting a room with an empty member set preserves the invariant. -/
theorem WInv_createRoom {w : World} (h : WInv w) (r0 : Room)
    (hcl : r0.clients = []) : WInv (Manager.createRoom w r0) := by
  unfold Manager.createRoom
  cases hrid : afind w.rooms r0.id with
  | none =>
    rw [ains_eq_append _ hrid]
    have hrq : roomQids (w.rooms ++ [(r0.id, r0)]) = roomQids w.rooms := by
      rw [roomQids_append, roomQids_cons, hcl]
      simp [roomQids]
    refine ⟨h.qKeysNodup, h.qKeysLt, h.closedLe, ?_, ?_, ?_⟩
    · show ((w.rooms ++ [(r0.id, r0)]).map Prod.fst).Nodup
      rw [List.map_append, List.nodup_append]
      refine ⟨h.roomKeysNodup, by simp, ?_⟩
      intro k hk
      simp only [List.map_cons, List.map_nil, List.mem_cons, List.not_mem_nil, or_false]
      intro he
      subst he
      rw [afind_eq_none_iff] at hrid
      exact hrid hk
    · show (w.hubClients ++ roomQids (w.rooms ++ [(r0.id, r0)])).Nodup
      rw [hrq]
      exact h.liveNodup
    · intro k hk
      have hk' : k ∈ w.hubClients ++ roomQids (w.rooms ++ [(r0.id, r0)]) := hk
      rw [hrq] at hk'
      exact h.liveOpen k hk'
  | some rPrev =>
    obtain ⟨l₁, l₂, hsplit, hl₁, hset, hdel⟩ := afind_split hrid
    rw [ains_eq_aset hrid, hset r0]
    have hndold := h.liveNodup
    rw [liveQids_split l₁ l₂ r0.id rPrev hsplit] at hndold
    have hrq : roomQids (l₁ ++ (r0.id, r0) :: l₂) =
        roomQids l₁ ++ roomQids l₂ := by
      rw [roomQids_append, roomQids_cons, hcl]
      simp
    refine ⟨h.qKeysNodup, h.qKeysLt, h.closedLe, ?_, ?_, ?_⟩
    · show ((l₁ ++ (r0.id, r0) :: l₂).map Prod.fst).Nodup
      have : (l₁ ++ (r0.id, r0) :: l₂).map Prod.fst =
          (l₁ ++ (r0.id, rPrev) :: l₂).map Prod.fst := by
        simp
      rw [this, ← hsplit]
      exact h.roomKeysNodup
    · show (w.hubClients ++ roomQids (l₁ ++ (r0.id, r0) :: l₂)).Nodup
      rw [hrq]
      refine List.Sublist.nodup ?_ hndold
      exact (List.Sublist.refl _).append ((List.Sublist.refl _).append
        ((List.nil_sublist _).append (List.Sublist.refl _)))
    · intro k hk
      have hk' : k ∈ w.hubClients ++ roomQids (l₁ ++ (r0.id, r0) :: l₂) := hk
      rw [hrq] at hk'
      apply liveOpen_of_parts h hsplit
      rcases List.mem_append.mp hk' with hk1 | hk1
      · exact Or.inl hk1
      · rcases List.mem_append.mp hk1 with hk2 | hk2
        · exact Or.inr (Or.inl hk2)
        · exact Or.inr (Or.inr hk2)

theorem WInv_broadcastToRoom {w : World} (h : WInv w) (rid : String) (m : OutMsg) :
    WInv (Manager.broadcastToRoom w rid m) := by
  unfold Manager.broadcastToRoom
  cases hr : afind w.rooms rid with
  | none => exact h
  | some r =>
    dsimp only
    obtain ⟨l₁, l₂, hsplit, hl₁, hset, hdel⟩ := afind_split hr
    have hnd := h.liveNodup
    rw [liveQids_split l₁ l₂ rid r hsplit] at hnd
    exact WInv_room_pass h rid r l₁ l₂ hset m none r.clients w.queues rfl
      (fun k q' hq' => ⟨q', hq', le_max_left _ _⟩)
      (memberOpen h hsplit)
      (fun k _ => rfl)
      (liveOpen_of_parts h hsplit)
      hnd

theorem WInv_hubBroadcast {w : World} (h : WInv w) (m : OutMsg) :
    WInv (Hub.broadcast w m) := by
  unfold Hub.broadcast
  exact WInv_hub_pass h w.queues m none w.hubClients rfl
    (fun k q' hq' => ⟨q', hq', le_max_left _ _⟩)
    (fun k hk => h.liveOpen k (List.mem_append.mpr (Or.inl hk)))
    (fun k _ => rfl)
    h.liveNodup

theorem WInv_hubUnregister {w : World} (h : WInv w) (cq : Nat) (now : String) :
    WInv (Hub.unregister w cq now) := by
  unfold Hub.unregister
  cases hc : afind w.clientRecs cq with
  | none => exact h
  | some c =>
    dsimp only
    by_cases hmem : cq ∈ w.hubClients
    · rw [if_pos hmem]
      have hdisj := hub_room_disjoint h
      have hfilter : ∀ k ∈ w.hubClients.filter (fun x => x ≠ cq),
          k ∈ w.hubClients ∧ k ≠ cq := by
        intro k hk
        have := List.mem_filter.mp hk
        exact ⟨this.1, by simpa using this.2⟩
      apply WInv_hub_pass h (closeQ w.queues cq) _ none _ (closeQ_keys _ _)
      · intro k q' hq'
        by_cases hkcq : cq = k
        · subst hkcq
          rw [afind_closeQ_self] at hq'
          obtain ⟨q0, hq0, hq0c⟩ := h.liveOpen cq (List.mem_append.mpr (Or.inl hmem))
          rw [hq0, Option.map_some'] at hq'
          cases hq'
          exact ⟨q0, hq0, by simp [bump, hq0c]⟩
        · rw [afind_closeQ_ne _ _ _ hkcq] at hq'
          exact ⟨q', hq', le_max_left _ _⟩
      · intro k hk
        obtain ⟨hk1, hk2⟩ := hfilter k hk
        rw [afind_closeQ_ne _ _ _ (Ne.symm hk2)]
        exact h.liveOpen k (List.mem_append.mpr (Or.inl hk1))
      · intro k hk
        have hkcq : cq ≠ k := by
          intro he
          exact hdisj cq hmem (he ▸ hk)
        exact afind_closeQ_ne _ _ _ hkcq
      · refine List.Sublist.nodup ?_ h.liveNodup
        exact (List.filter_sublist _).append (List.Sublist.refl _)
    · rw [if_neg hmem]
      exact WInv_hub_pass h w.queues _ none w.hubClients rfl
        (fun k q' hq' => ⟨q', hq', le_max_left _ _⟩)
        (fun k hk => h.liveOpen k (List.mem_append.mpr (Or.inl hk)))
        (fun k _ => rfl)
        h.liveNodup

theorem WInv_connect {w : World} (h : WInv w) (id username now : String) :
    WInv (connect w id username now) := by
  unfold connect
  dsimp only
  set q0 : Queue := { msgs := [], cap := 256, closedCount := 0 } with hq0def
  set w1 : World := { w with
    queues := ains w.queues w.nextQ q0,
    clientRecs := ains w.clientRecs w.nextQ
      { id := id, username := username, sendQ := w.nextQ, roomID := "" },
    nextQ := w.nextQ + 1 } with hw1
  have h1 : WInv w1 := WInv_congr (WInv_alloc h) rfl rfl rfl rfl
  unfold Hub.register
  have hcr : afind w1.clientRecs w.nextQ =
      some { id := id, username := username, sendQ := w.nextQ, roomID := "" } := by
    rw [hw1]
    exact afind_ains_self _ _ _
  rw [hcr]
  dsimp only
  have hnotmem : w.nextQ ∉ w1.hubClients := by
    rw [hw1]
    intro hk
    exact fresh_not_live h (List.mem_append.mpr (Or.inl hk))
  rw [if_neg hnotmem]
  apply WInv_hub_pass h1 w1.queues _ (some w.nextQ) (w1.hubClients ++ [w.nextQ]) rfl
    (fun k q' hq' => ⟨q', hq', le_max_left _ _⟩)
  · intro k hk
    rcases List.mem_append.mp hk with hk | hk
    · have hk' : k ∈ w.hubClients := hk
      have hlt := live_lt_next h (List.mem_append.mpr (Or.inl hk'))
      rw [hw1]
      show ∃ q, afind (ains w.queues w.nextQ q0) k = some q ∧ q.closedCount = 0
      rw [afind_ains_ne w.queues w.nextQ k _ (Nat.ne_of_gt hlt)]
      exact h.liveOpen k (List.mem_append.mpr (Or.inl hk'))
    · simp at hk
      subst hk
      rw [hw1]
      exact ⟨q0, afind_ains_self _ _ _, rfl⟩
  · intro k _
    rfl
  · have hfresh : w.nextQ ∉ w.hubClients ++ roomQids w.rooms := fresh_not_live h
    have heq : (w1.hubClients ++ [w.nextQ]) ++ roomQids w1.rooms =
        (w.hubClients ++ [w.nextQ]) ++ roomQids w.rooms := by
      rw [hw1]
    rw [heq]
    have h2 : (w.hubClients ++ [w.nextQ]) ++ roomQids w.rooms =
        w.hubClients ++ w.nextQ :: roomQids w.rooms := by
      simp
    rw [h2, List.nodup_middle, List.nodup_cons]
    exact ⟨hfresh, h.liveNodup⟩

theorem WInv_deleteRoom {w : World} (h : WInv w) (rid : String) :
    WInv (Manager.deleteRoom w rid) := by
  unfold Manager.deleteRoom
  cases hr : afind w.rooms rid with
  | none => exact h
  | some r =>
    dsimp only
    obtain ⟨l₁, l₂, hsplit, hl₁, hset, hdel⟩ := afind_split hr
    have hkeys := h.roomKeysNodup
    rw [hsplit, List.map_append, List.map_cons] at hkeys
    have hridl₂ : afind l₂ rid = none := by
      have h2 := (List.nodup_append.mp hkeys).2.1
      rw [List.nodup_cons] at h2
      exact afind_eq_none_of_not_mem h2.1
    have hadel : adel w.rooms rid = l₁ ++ l₂ := by
      rw [hdel, adel_eq_of_not_mem hridl₂]
    have hndold := h.liveNodup
    rw [liveQids_split l₁ l₂ rid r hsplit] at hndold
    have hSd1 := List.nodup_append.mp hndold
    have hSd2 := List.nodup_append.mp hSd1.2.1
    have hSd3 := List.nodup_append.mp hSd2.2.1
    have hmnd : (r.clients.map RClient.sendQ).Nodup := hSd3.1
    have hout_not : ∀ k, k ∈ w.hubClients ∨ k ∈ roomQids l₁ ∨ k ∈ roomQids l₂ →
        k ∉ r.clients.map RClient.sendQ := by
      intro k hk hkm
      rcases hk with hk | hk | hk
      · exact hSd1.2.2 hk (List.mem_append.mpr
          (Or.inr (List.mem_append.mpr (Or.inl hkm))))
      · exact hSd2.2.2 hk (List.mem_append.mpr (Or.inl hkm))
      · exact hSd3.2.2 hkm hk
    refine ⟨?_, ?_, ?_, ?_, ?_, ?_⟩
    · show (((r.clients.map RClient.sendQ).foldl closeQ w.queues).map Prod.fst).Nodup
      rw [foldl_closeQ_keys]
      exact h.qKeysNodup
    · show ∀ k ∈ ((r.clients.map RClient.sendQ).foldl closeQ w.queues).map Prod.fst,
        k < w.nextQ
      rw [foldl_closeQ_keys]
      exact h.qKeysLt
    · intro k q hq
      by_cases hkm : k ∈ r.clients.map RClient.sendQ
      · rw [afind_foldl_closeQ_mem _ _ _ hmnd hkm] at hq
        obtain ⟨x, hx, hxk⟩ := List.mem_map.mp hkm
        obtain ⟨q0, hq0, hq0c⟩ := memberOpen h hsplit x hx
        rw [hxk] at hq0
        rw [hq0, Option.map_some'] at hq
        cases hq
        simp [bump, hq0c]
      · rw [afind_foldl_closeQ_not_mem _ _ _ hkm] at hq
        exact h.closedLe k q hq
    · show ((adel w.rooms rid).map Prod.fst).Nodup
      rw [hadel, List.map_append]
      refine List.Sublist.nodup ?_ hkeys
      exact (List.Sublist.refl _).append ((List.Sublist.refl _).cons rid)
    · show (w.hubClients ++ roomQids (adel w.rooms rid)).Nodup
      rw [hadel, roomQids_append]
      refine List.Sublist.nodup ?_ hndold
      refine (List.Sublist.refl _).append ((List.Sublist.refl _).append ?_)
      exact List.sublist_append_right _ _
    · intro k hk
      have hk' : k ∈ w.hubClients ++ roomQids (adel w.rooms rid) := hk
      rw [hadel, roomQids_append] at hk'
      have hparts : k ∈ w.hubClients ∨ k ∈ roomQids l₁ ∨ k ∈ roomQids l₂ := by
        rcases List.mem_append.mp hk' with h1 | h1
        · exact Or.inl h1
        · rcases List.mem_append.mp h1 with h2 | h2
          · exact Or.inr (Or.inl h2)
          · exact Or.inr (Or.inr h2)
      show ∃ q, afind ((r.clients.map RClient.sendQ).foldl closeQ w.queues) k =
        some q ∧ q.closedCount = 0
      rw [afind_foldl_closeQ_not_mem _ _ _ (hout_not k hparts)]
      exact liveOpen_of_parts h hsplit k hparts

theorem WInv_leaveRoom {w : World} (h : WInv w) (cq : Nat) (rid now : String) :
    WInv (Manager.leaveRoom w cq rid now).1 := by
  unfold Manager.leaveRoom
  cases hr : afind w.rooms rid with
  | none => exact h
  | some r =>
    cases hc : afind w.clientRecs cq with
    | none => exact h
    | some c =>
      dsimp only
      cases hf : r.clients.find? (fun rc => rc.id == c.id) with
      | none => exact h
      | some rcm =>
        dsimp only
        have hmem : rcm ∈ r.clients := List.mem_of_find?_eq_some hf
        rw [unregisterClient_present w.queues r rcm now hmem]
        dsimp only
        obtain ⟨l₁, l₂, hsplit, hl₁, hset, hdel⟩ := afind_split hr
        have hndold := h.liveNodup
        rw [liveQids_split l₁ l₂ rid r hsplit] at hndold
        have hSd1 := List.nodup_append.mp hndold
        have hSd2 := List.nodup_append.mp hSd1.2.1
        have hSd3 := List.nodup_append.mp hSd2.2.1
        have hrcm_mem : rcm.sendQ ∈ r.clients.map RClient.sendQ :=
          List.mem_map.mpr ⟨rcm, hmem, rfl⟩
        have hout_ne : ∀ k, k ∈ w.hubClients ∨ k ∈ roomQids l₁ ∨ k ∈ roomQids l₂ →
            rcm.sendQ ≠ k := by
          intro k hk he
          rw [← he] at hk
          rcases hk with hk | hk | hk
          · exact hSd1.2.2 hk (List.mem_append.mpr
              (Or.inr (List.mem_append.mpr (Or.inl hrcm_mem))))
          · exact hSd2.2.2 hk (List.mem_append.mpr (Or.inl hrcm_mem))
          · exact hSd3.2.2 hrcm_mem hk
        apply WInv_room_pass h rid r l₁ l₂ hset _ none
          (r.clients.filter (fun x => x.sendQ ≠ rcm.sendQ))
          (closeQ w.queues rcm.sendQ) (closeQ_keys _ _)
        · intro k q' hq'
          by_cases hkm : rcm.sendQ = k
          · subst hkm
            rw [afind_closeQ_self] at hq'
            obtain ⟨q0, hq0, hq0c⟩ := memberOpen h hsplit rcm hmem
            rw [hq0, Option.map_some'] at hq'
            cases hq'
            exact ⟨q0, hq0, by simp [bump, hq0c]⟩
          · rw [afind_closeQ_ne _ _ _ hkm] at hq'
            exact ⟨q', hq', le_max_left _ _⟩
        · intro x hx
          have hx' := List.mem_filter.mp hx
          have hxne : x.sendQ ≠ rcm.sendQ := by simpa using hx'.2
          rw [afind_closeQ_ne _ _ _ (Ne.symm hxne)]
          exact memberOpen h hsplit x hx'.1
        · intro k hk
          exact afind_closeQ_ne _ _ _ (hout_ne k hk)
        · exact liveOpen_of_parts h hsplit
        · refine List.Sublist.nodup ?_ hndold
          exact (List.Sublist.refl _).append ((List.Sublist.refl _).append
            (((List.filter_sublist _).map RClient.sendQ).append (List.Sublist.refl _)))

/-- A room-register of a client whose queue key is not yet a member: insert
then broadcast the joined notice with the new member as sender. -/
theorem registerClient_not_present (qs : List (Nat × Queue)) (r : Room)
    (c : RClient) (now : String) (hP : Room.hasPtr r.clients c.sendQ = false) :
    Room.registerClient qs r c now =
      ((Room.broadcastMessage qs (r.clients ++ [c])
          (OutMsg.system (c.username ++ " joined the room") now) (some c.sendQ)).1,
       { r with clients := (Room.broadcastMessage qs (r.clients ++ [c])
          (OutMsg.system (c.username ++ " joined the room") now) (some c.sendQ)).2 }) := by
  unfold Room.registerClient
  rw [hP]
  rfl

theorem WInv_joinRoom {w : World} (h : WInv w) (cq : Nat) (rid now : String) :
    WInv (Manager.joinRoom w cq rid now).1 := by
  unfold Manager.joinRoom
  cases hr : afind w.rooms rid with
  | none => exact h
  | some r =>
    cases hc : afind w.clientRecs cq with
    | none => exact h
    | some c =>
      dsimp only
      obtain ⟨l₁, l₂, hsplit, hl₁, hset, hdel⟩ := afind_split hr
      have hmlt := memberLt h hsplit
      have hP : Room.hasPtr r.clients w.nextQ = false := by
        unfold Room.hasPtr
        rw [List.any_eq_false]
        intro x hx
        simp only [beq_iff_eq]
        exact Nat.ne_of_lt (hmlt x hx)
      rw [registerClient_not_present _ _ _ _ hP]
      dsimp only
      have h1 : WInv { w with
          queues := ains w.queues w.nextQ { msgs := [], cap := 256, closedCount := 0 },
          nextQ := w.nextQ + 1 } := WInv_alloc h
      have hfresh : w.nextQ ∉ w.hubClients ++
          (roomQids l₁ ++ (r.clients.map RClient.sendQ ++ roomQids l₂)) := by
        rw [← liveQids_split l₁ l₂ rid r hsplit]
        exact fresh_not_live h
      have hndold := h.liveNodup
      rw [liveQids_split l₁ l₂ rid r hsplit] at hndold
      set rc : RClient := { id := c.id, username := c.username, sendQ := w.nextQ }
        with hrcdef
      have core := WInv_room_pass h1 rid r l₁ l₂ hset
        (OutMsg.system (c.username ++ " joined the room") now) (some w.nextQ)
        (r.clients ++ [rc])
        (ains w.queues w.nextQ { msgs := [], cap := 256, closedCount := 0 })
        rfl
        (fun k q' hq' => ⟨q', hq', le_max_left _ _⟩)
        ?hO ?hQ ?hLive ?hS
      case hO =>
        intro x hx
        rcases List.mem_append.mp hx with hx | hx
        · rw [afind_ains_ne w.queues w.nextQ x.sendQ _ (Nat.ne_of_gt (hmlt x hx))]
          exact memberOpen h hsplit x hx
        · simp at hx
          subst hx
          exact ⟨_, afind_ains_self _ _ _, rfl⟩
      case hQ =>
        intro k _
        rfl
      case hLive =>
        intro k hk
        have hklive : k ∈ liveQids w := by
          rw [liveQids_split l₁ l₂ rid r hsplit]
          rcases hk with hk | hk | hk
          · exact List.mem_append.mpr (Or.inl hk)
          · exact List.mem_append.mpr (Or.inr (List.mem_append.mpr (Or.inl hk)))
          · exact List.mem_append.mpr (Or.inr (List.mem_append.mpr (Or.inr
              (List.mem_append.mpr (Or.inr hk)))))
        have hlt := live_lt_next h hklive
        show ∃ q, afind (ains w.queues w.nextQ
          { msgs := [], cap := 256, closedCount := 0 }) k = some q ∧ q.closedCount = 0
        rw [afind_ains_ne w.queues w.nextQ k _ (Nat.ne_of_gt hlt)]
        exact h.liveOpen k hklive
      case hS =>
        show (w.hubClients ++ (roomQids l₁ ++
          (((r.clients ++ [rc]).map RClient.sendQ) ++ roomQids l₂))).Nodup
        rw [List.map_append]
        exact nodup_insert_middle hndold hfresh
      exact WInv_congr core rfl rfl rfl rfl

theorem WInv_handleJoin {w : World} (h : WInv w) (cq : Nat) (roomId now : String) :
    WInv (handleJoin w cq roomId now) := by
  unfold handleJoin
  dsimp only
  have h1 := WInv_joinRoom h cq roomId now
  by_cases hs : (Manager.joinRoom w cq roomId now).2.success = true
  · rw [if_pos hs]
    exact WInv_selfSend (WInv_setRoomID h1 cq roomId) cq _
  · rw [if_neg hs]
    exact WInv_selfSend h1 cq _

theorem WInv_handleLeave {w : World} (h : WInv w) (cq : Nat) (now : String) :
    WInv (handleLeave w cq now) := by
  unfold handleLeave
  cases hc : afind w.clientRecs cq with
  | none => exact h
  | some c =>
    dsimp only
    by_cases hrid : c.roomID ≠ ""
    · rw [if_pos hrid]
      have h1 := WInv_leaveRoom h cq c.roomID now
      by_cases hsucc : (Manager.leaveRoom w cq c.roomID now).2 = true
      · rw [if_pos hsucc]
        exact WInv_selfSend (WInv_setRoomID h1 cq "") cq _
      · rw [if_neg hsucc]
        exact h1
    · rw [if_neg hrid]
      exact h

theorem WInv_handleCreate {w : World} (h : WInv w) (cq : Nat)
    (roomName now s : String) (ns : List Nat) :
    WInv (handleCreate w cq roomName now s ns) := by
  unfold handleCreate
  cases hc : afind w.clientRecs cq with
  | none => exact h
  | some c =>
    dsimp only
    exact WInv_handleJoin
      (WInv_selfSend (WInv_createRoom h _ rfl) cq _) cq _ now

theorem WInv_handleList {w : World} (h : WInv w) (cq : Nat) :
    WInv (handleList w cq) := by
  unfold handleList
  exact WInv_selfSend h cq _

theorem WInv_handleRoomAction {w : World} (h : WInv w) (cq : Nat)
    (action : RoomAction) (now s : String) (ns : List Nat) :
    WInv (handleRoomAction w cq action now s ns) := by
  unfold handleRoomAction
  split
  · exact WInv_handleCreate h cq _ now s ns
  · exact WInv_handleJoin h cq _ now
  · exact WInv_handleLeave h cq now
  · exact WInv_handleList h cq
  · exact h

theorem WInv_readPumpStep {w : World} (h : WInv w) (cq : Nat) (rec : InRecord)
    (now s : String) (ns : List Nat) :
    WInv (readPumpStep w cq rec now s ns) := by
  unfold readPumpStep
  by_cases ht : rec.mtype ≠ ""
  · rw [if_pos ht]
    exact WInv_handleRoomAction h cq _ now s ns
  · rw [if_neg ht]
    cases hc : afind w.clientRecs cq with
    | none => exact h
    | some c =>
      dsimp only
      by_cases hr : c.roomID ≠ ""
      · rw [if_pos hr]
        exact WInv_broadcastToRoom h _ _
      · rw [if_neg hr]
        exact WInv_hubBroadcast h _

theorem WInv_step {w : World} (h : WInv w) (op : Op) : WInv (step w op) := by
  cases op with
  | connect id username now => exact WInv_connect h id username now
  | disconnect cq now => exact WInv_hubUnregister h cq now
  | inbound cq rec now s ns => exact WInv_readPumpStep h cq rec now s ns
  | delRoom rid => exact WInv_deleteRoom h rid

theorem WInv_foldl (ops : List Op) : ∀ w, WInv w → WInv (ops.foldl step w) := by
  induction ops with
  | nil =>
    intro w h
    exact h
  | cons op rest ih =>
    intro w h
    rw [List.foldl_cons]
    exact ih _ (WInv_step h op)

theorem WInv_run (ops : List Op) : WInv (run ops) :=
  WInv_foldl ops initWorld WInv_initWorld

/-- Claim C9: across every sequence of external commands the system processes
— new connections (hub register with its welcome broadcast), hub unregisters
(close plus goodbye broadcast with full-queue eviction), inbound records (room
create/join/leave/list actions, chat fan-out to the hub or a room, each
broadcast pass evicting full-queue recipients), and room deletions (closing
every member's queue) — every allocated outbound queue is closed at most once
over its lifetime; no reachable execution closes the same queue twice. -/
theorem C9_close_at_most_once (ops : List Op) : closedOk (run ops) = true := by
  have h := WInv_run ops
  unfold closedOk
  rw [List.all_eq_true]
  intro p hp
  rw [decide_eq_true_eq]
  exact h.closedLe p.1 p.2 (afind_entry_of_nodup h.qKeysNodup hp)
